import Mathlib

set_option autoImplicit false

/-!
Verification of the lcm-tui context-ledger mutation engine.

This file shallowly embeds the relational data model (conversations,
summaries, summary edges, context items) and the operations of the
repository: the dissolve engine from dissolve.go, the summary-graph
reader from the data-loading module, the display traversal from main.go,
and the transplant engine described by specs/transplant.md.  Tables are
lists of rows; SQL filters, joins and updates become list filters,
flat-maps and maps; fallible operations return Except.
-/

/-- One row of the context_items table: the ordered context window of a
conversation.  Mirrors the SQL schema
(conversation_id, ordinal, item_type, message_id, summary_id, created_at). -/
structure ContextItem where
  conversationID : Int
  ordinal : Int
  itemType : String
  messageID : Option Int
  summaryID : Option String
  createdAt : String
deriving DecidableEq, Repr

/-- One row of the summaries table
(summary_id, conversation_id, kind, content, token_count, created_at,
file_ids, depth). -/
structure Summary where
  summaryID : String
  conversationID : Int
  kind : String
  content : String
  tokenCount : Int
  createdAt : String
  fileIDs : Option String
  depth : Int
deriving DecidableEq, Repr

/-- One row of the summary_parents table: a child-to-parent DAG edge
(summary_id, parent_summary_id, ordinal). -/
structure SummaryParentEdge where
  summaryID : String
  parentSummaryID : String
  ordinal : Int
deriving DecidableEq, Repr

/-- One row of the summary_messages table
(summary_id, message_id, ordinal). -/
structure SummaryMessageEdge where
  summaryID : String
  messageID : Int
  ordinal : Int
deriving DecidableEq, Repr

/-- The ledger store: the four tables the mutation engines touch.
Each table is the list of its rows, in storage order. -/
structure Store where
  summaries : List Summary
  summaryParents : List SummaryParentEdge
  summaryMessages : List SummaryMessageEdge
  contextItems : List ContextItem
deriving DecidableEq, Repr

/-- The observable reference carried by a context item: its type and the
message or summary it points at (everything except the ordinal and the
creation stamp). -/
def refOf (ci : ContextItem) : String × Option Int × Option String :=
  (ci.itemType, ci.messageID, ci.summaryID)

/-- All context items of conversation `cid` sitting at ordinal `j`. -/
def itemsAt (items : List ContextItem) (cid j : Int) : List ContextItem :=
  items.filter (fun ci => ci.conversationID == cid && ci.ordinal == j)

/-- The references visible at ordinal `j` of conversation `cid`. -/
def refsAt (items : List ContextItem) (cid j : Int) :
    List (String × Option Int × Option String) :=
  (itemsAt items cid j).map refOf

/-- The ordinals held by conversation `cid`, in storage order. -/
def conversationOrdinals (items : List ContextItem) (cid : Int) : List Int :=
  (items.filter (fun ci => ci.conversationID == cid)).map ContextItem.ordinal

/-- The ledger invariant: conversation `cid`'s ordinals are exactly the
contiguous range [0, N) with no duplicates and no gaps.  Stated as: the
ordinal list has no duplicates, has length N, and every ordinal lies in
[0, N); by pigeonhole this forces the set of ordinals to be [0, N). -/
def contiguousLedger (items : List ContextItem) (cid : Int) (N : Nat) : Prop :=
  (conversationOrdinals items cid).Nodup ∧
  (conversationOrdinals items cid).length = N ∧
  ∀ j ∈ conversationOrdinals items cid, 0 ≤ j ∧ j < (N : Int)

instance (items : List ContextItem) (cid : Int) (N : Nat) :
    Decidable (contiguousLedger items cid N) := by
  unfold contiguousLedger; infer_instance

/-! ## Dissolve engine (dissolve.go) -/

/-- The dissolve target row, as scanned by loadDissolveTarget. -/
structure dissolveTarget where
  summaryID : String
  conversationID : Int
  kind : String
  depth : Int
  tokenCount : Int
  ordinal : Int
deriving DecidableEq, Repr

/-- One parent row of the dissolve target, as scanned by
loadDissolveParents. -/
structure dissolveParent where
  summaryID : String
  ordinal : Int
  kind : String
  depth : Int
  tokenCount : Int
  content : String
deriving DecidableEq, Repr

/-- The rows of the join
`summaries s JOIN context_items ci ON ci.summary_id = s.summary_id AND
ci.conversation_id = s.conversation_id WHERE s.summary_id = ? AND
s.conversation_id = ?` used by loadDissolveTarget. -/
def dissolveTargetRows (st : Store) (cid : Int) (sid : String) :
    List (Summary × ContextItem) :=
  (st.summaries.filter (fun s => s.summaryID == sid && s.conversationID == cid)).flatMap
    (fun s =>
      (st.contextItems.filter (fun ci =>
        ci.summaryID == some s.summaryID && ci.conversationID == s.conversationID)).map
        (fun ci => (s, ci)))

/-- loadDissolveTarget: QueryRow takes the first join row; no row is the
"not in active context" failure; a non-condensed kind is rejected. -/
def loadDissolveTarget (st : Store) (cid : Int) (sid : String) :
    Except String dissolveTarget :=
  match dissolveTargetRows st cid sid with
  | [] =>
      .error ("summary " ++ sid ++ " not found in active context for conversation "
        ++ toString cid)
  | (s, ci) :: _ =>
      if s.kind ≠ "condensed" then
        .error ("summary " ++ sid ++ " is a " ++ s.kind ++ " (depth "
          ++ toString s.depth
          ++ "), not condensed — only condensed summaries can be dissolved")
      else
        .ok { summaryID := s.summaryID, conversationID := s.conversationID,
              kind := s.kind, depth := s.depth, tokenCount := s.tokenCount,
              ordinal := ci.ordinal }

/-- loadDissolveParents: join summary_parents with summaries on the parent
id, restricted to the target child, ordered by edge ordinal ascending. -/
def loadDissolveParents (st : Store) (sid : String) : List dissolveParent :=
  ((st.summaryParents.filter (fun sp => sp.summaryID == sid)).flatMap
    (fun sp =>
      (st.summaries.filter (fun s => s.summaryID == sp.parentSummaryID)).map
        (fun s => ({ summaryID := sp.parentSummaryID, ordinal := sp.ordinal,
                     kind := s.kind, depth := s.depth, tokenCount := s.tokenCount,
                     content := s.content } : dissolveParent)))).insertionSort
    (fun a b => a.ordinal ≤ b.ordinal)

/-- The disjoint staging offset used by the two-phase renumbering
(const tempOffset = 10_000_000 in dissolve.go). -/
def tempOffset : Int := 10000000

/-- Phase A of the renumbering: move every item of the conversation with
ordinal strictly above `o` up into the staging range. -/
def phaseAShift (cid o : Int) (items : List ContextItem) : List ContextItem :=
  items.map (fun ci =>
    if ci.conversationID == cid && decide (ci.ordinal > o) then
      { ci with ordinal := ci.ordinal + tempOffset }
    else ci)

/-- Phase B of the renumbering: move every item of the conversation in the
staging range to its final ordinal. -/
def phaseBShift (cid shift : Int) (items : List ContextItem) : List ContextItem :=
  items.map (fun ci =>
    if ci.conversationID == cid && decide (ci.ordinal ≥ tempOffset) then
      { ci with ordinal := ci.ordinal - tempOffset + shift }
    else ci)

/-- The single-pass renumbering the spec says the two phases are
equivalent to: add `shift` to every ordinal strictly above `o`. -/
def singlePassShift (cid o shift : Int) (items : List ContextItem) : List ContextItem :=
  items.map (fun ci =>
    if ci.conversationID == cid && decide (ci.ordinal > o) then
      { ci with ordinal := ci.ordinal + shift }
    else ci)

/-- The insertion loop of step 3: one new context item per parent, at
consecutive ordinals starting at the freed ordinal. -/
def parentItems (cid : Int) (now : String) : Int → List dissolveParent → List ContextItem
  | _, [] => []
  | ord, p :: rest =>
      { conversationID := cid, ordinal := ord, itemType := "summary",
        messageID := none, summaryID := some p.summaryID, createdAt := now }
      :: parentItems cid now (ord + 1) rest

/-- The predicate of the step-1 delete:
`DELETE FROM context_items WHERE conversation_id = ? AND ordinal = ? AND
summary_id = ?`. -/
def isDissolveTargetItem (cid : Int) (t : dissolveTarget) (ci : ContextItem) : Bool :=
  ci.conversationID == cid && ci.ordinal == t.ordinal && ci.summaryID == some t.summaryID

/-- The dissolve write transaction of runDissolveCommand: delete the
target's context item (exactly one row or abort), two-phase shift when
more than one parent, insert the parents, and optionally purge the
summary record and its parent edges.  Returns the committed store, or the
error on which the transaction is rolled back. -/
def dissolveTx (st : Store) (cid : Int) (t : dissolveTarget)
    (parents : List dissolveParent) (purge : Bool) (now : String) :
    Except String Store :=
  let deleted := st.contextItems.countP (isDissolveTargetItem cid t)
  if deleted ≠ 1 then
    .error ("expected to delete 1 context_item, deleted " ++ toString deleted)
  else
    let items1 := st.contextItems.filter (fun ci => !isDissolveTargetItem cid t ci)
    let shift : Int := (parents.length : Int) - 1
    let items2 :=
      if shift > 0 then phaseBShift cid shift (phaseAShift cid t.ordinal items1)
      else items1
    let items3 := items2 ++ parentItems cid now t.ordinal parents
    let st1 : Store := { st with contextItems := items3 }
    if purge then
      .ok { st1 with
            summaryParents := st1.summaryParents.filter
              (fun sp => !(sp.summaryID == t.summaryID)),
            summaries := st1.summaries.filter
              (fun s => !(s.summaryID == t.summaryID)) }
    else .ok st1

/-- The plan report printed by runDissolveCommand before the apply check:
the target, its ordered parents, the parents' total token count, the
token delta, the count of items that will shift, and the shift amount. -/
structure dissolveReport where
  target : dissolveTarget
  parents : List dissolveParent
  totalParentTokens : Int
  tokenDelta : Int
  totalItems : Nat
  shift : Int
deriving DecidableEq, Repr

/-- The plan report assembled from the loaded target and parents: the
parents' total token count, the token delta, the count of items above the
target's ordinal, and the shift amount. -/
def dissolvePlanReport (st : Store) (cid : Int) (t : dissolveTarget)
    (parents : List dissolveParent) : dissolveReport :=
  { target := t, parents := parents,
    totalParentTokens := (parents.map dissolveParent.tokenCount).sum,
    tokenDelta := (parents.map dissolveParent.tokenCount).sum - t.tokenCount,
    totalItems := st.contextItems.countP (fun ci =>
      ci.conversationID == cid && decide (ci.ordinal > t.ordinal)),
    shift := (parents.length : Int) - 1 }

/-- runDissolveCommand: load the target and its parents, fail on zero
parents, compute the plan report; in dry-run mode stop there, otherwise
run the transaction. -/
def runDissolveCommand (st : Store) (cid : Int) (sid : String)
    (apply purge : Bool) (now : String) :
    Except String (Store × dissolveReport) :=
  match loadDissolveTarget st cid sid with
  | .error e => .error e
  | .ok t =>
      let parents := loadDissolveParents st sid
      if parents.isEmpty then
        .error ("summary " ++ sid ++ " has no parent summaries — nothing to dissolve")
      else
        let report := dissolvePlanReport st cid t parents
        if !apply then .ok (st, report)
        else
          match dissolveTx st cid t parents purge now with
          | .error e => .error e
          | .ok stApplied => .ok (stApplied, report)

/-- The store visible after a dissolve invocation: the committed store on
success, the untouched store when anything failed (rollback / early
return). -/
def dissolveRun (st : Store) (cid : Int) (sid : String)
    (apply purge : Bool) (now : String) : Store :=
  match runDissolveCommand st cid sid apply purge now with
  | .ok (stRes, _) => stRes
  | .error _ => st

/-! ## Helper lemmas: counting items per ordinal -/

lemma length_refsAt (items : List ContextItem) (cid j : Int) :
    (refsAt items cid j).length = (itemsAt items cid j).length := by
  simp [refsAt]

lemma length_itemsAt_eq_count (items : List ContextItem) (cid j : Int) :
    (itemsAt items cid j).length = (conversationOrdinals items cid).count j := by
  unfold itemsAt conversationOrdinals
  rw [← List.countP_eq_length_filter, List.count, List.countP_map, List.countP_filter]
  apply List.countP_congr
  intro ci _
  simp [Function.comp, Bool.and_comm]

/-- The range of ordinals [0, N) as a list of integers. -/
def rangeInt (N : Nat) : List Int := List.map (fun n : Nat => (n : Int)) (List.range N)

lemma mem_rangeInt (N : Nat) (j : Int) : j ∈ rangeInt N ↔ 0 ≤ j ∧ j < (N : Int) := by
  unfold rangeInt
  constructor
  · intro h
    rcases List.mem_map.mp h with ⟨n, hn, hj⟩
    rw [List.mem_range] at hn
    omega
  · rintro ⟨h0, hN⟩
    refine List.mem_map.mpr ⟨j.toNat, ?_, ?_⟩
    · rw [List.mem_range]; omega
    · omega

lemma length_rangeInt (N : Nat) : (rangeInt N).length = N := by
  unfold rangeInt
  rw [List.length_map, List.length_range]

lemma nodup_rangeInt (N : Nat) : (rangeInt N).Nodup :=
  (List.nodup_range N).map (fun a b h => by omega)

lemma count_rangeInt (N : Nat) (j : Int) :
    (rangeInt N).count j = if 0 ≤ j ∧ j < (N : Int) then 1 else 0 := by
  by_cases h : 0 ≤ j ∧ j < (N : Int)
  · rw [if_pos h]
    exact List.count_eq_one_of_mem (nodup_rangeInt N) ((mem_rangeInt N j).mpr h)
  · rw [if_neg h]
    exact List.count_eq_zero.mpr (fun hm => h ((mem_rangeInt N j).mp hm))

lemma contiguousLedger_iff_count (items : List ContextItem) (cid : Int) (N : Nat) :
    contiguousLedger items cid N ↔
      ∀ j : Int, (itemsAt items cid j).length =
        if 0 ≤ j ∧ j < (N : Int) then 1 else 0 := by
  constructor
  · rintro ⟨hnd, hlen, hbound⟩ j
    rw [length_itemsAt_eq_count]
    set L := conversationOrdinals items cid with hL
    by_cases h : 0 ≤ j ∧ j < (N : Int)
    · rw [if_pos h]
      have hsub : L.toFinset ⊆ Finset.Ico (0 : Int) (N : Int) := by
        intro x hx
        rw [List.mem_toFinset] at hx
        rw [Finset.mem_Ico]
        exact hbound x hx
      have hcard : (Finset.Ico (0 : Int) (N : Int)).card ≤ L.toFinset.card := by
        rw [Int.card_Ico, List.toFinset_card_of_nodup hnd, hlen]
        omega
      have heq := Finset.eq_of_subset_of_card_le hsub hcard
      have hmem : j ∈ L := by
        rw [← List.mem_toFinset, heq, Finset.mem_Ico]
        exact h
      exact List.count_eq_one_of_mem hnd hmem
    · rw [if_neg h]
      rw [List.count_eq_zero]
      intro hm
      exact h (hbound j hm)
  · intro hcount
    have hperm : (conversationOrdinals items cid).Perm (rangeInt N) := by
      rw [List.perm_iff_count]
      intro j
      rw [count_rangeInt, ← length_itemsAt_eq_count, hcount]
    refine ⟨hperm.nodup_iff.mpr (nodup_rangeInt N), ?_, ?_⟩
    · rw [hperm.length_eq, length_rangeInt]
    · intro j hj
      exact (mem_rangeInt N j).mp (hperm.mem_iff.mp hj)

/-! ## Helper lemmas: how each transaction step transforms refsAt -/

lemma refsAt_append (l1 l2 : List ContextItem) (cid j : Int) :
    refsAt (l1 ++ l2) cid j = refsAt l1 cid j ++ refsAt l2 cid j := by
  unfold refsAt itemsAt
  rw [List.filter_append, List.map_append]

lemma refsAt_map_refPreserving (f : ContextItem → ContextItem)
    (hconv : ∀ ci, (f ci).conversationID = ci.conversationID)
    (href : ∀ ci, refOf (f ci) = refOf ci)
    (l : List ContextItem) (cid j : Int) :
    refsAt (l.map f) cid j =
      (l.filter (fun ci => ci.conversationID == cid && (f ci).ordinal == j)).map refOf := by
  unfold refsAt itemsAt
  rw [List.filter_map, List.map_map]
  have h1 : (List.filter ((fun ci => ci.conversationID == cid && ci.ordinal == j) ∘ f) l)
      = List.filter (fun ci => ci.conversationID == cid && (f ci).ordinal == j) l := by
    apply List.filter_congr
    intro ci _
    simp only [Function.comp]
    rw [hconv ci]
  rw [h1]
  apply List.map_congr_left
  intro ci _
  exact href ci

lemma beq_int_congr {a b c d : Int} (h : a = b ↔ c = d) : (a == b) = (c == d) := by
  by_cases hab : a = b
  · simp [hab, h.mp hab]
  · have hcd : ¬(c = d) := fun hcd => hab (h.mpr hcd)
    simp [hab, hcd]

lemma beq_int_false {a b : Int} (h : ¬ a = b) : (a == b) = false := by simp [h]

lemma refsAt_singlePassShift (cid o shift j : Int) (l : List ContextItem) (hs : 0 ≤ shift) :
    refsAt (singlePassShift cid o shift l) cid j =
      if j ≤ o then refsAt l cid j
      else if j ≤ o + shift then []
      else refsAt l cid (j - shift) := by
  unfold singlePassShift
  rw [refsAt_map_refPreserving _ (fun ci => by split <;> rfl) (fun ci => by split <;> rfl)]
  have key : ∀ ci : ContextItem,
      (ci.conversationID == cid &&
        ((if ci.conversationID == cid && decide (ci.ordinal > o) then
            { ci with ordinal := ci.ordinal + shift } else ci).ordinal == j))
      = (ci.conversationID == cid &&
          ((if ci.ordinal > o then ci.ordinal + shift else ci.ordinal) == j)) := by
    intro ci
    by_cases hc : ci.conversationID = cid
    · have hb : (ci.conversationID == cid) = true := by simp [hc]
      by_cases hgt : ci.ordinal > o
      · simp [hb, hgt]
      · simp [hb, hgt]
    · have hb : (ci.conversationID == cid) = false := by simp [hc]
      simp [hb]
  rw [List.filter_congr (fun ci _ => key ci)]
  by_cases h1 : j ≤ o
  · rw [if_pos h1]
    unfold refsAt itemsAt
    congr 1
    apply List.filter_congr
    intro ci _
    by_cases hgt : ci.ordinal > o
    · rw [if_pos hgt, beq_int_false (a := ci.ordinal + shift) (by omega),
        beq_int_false (a := ci.ordinal) (b := j) (by omega)]
    · rw [if_neg hgt]
  · rw [if_neg h1]
    by_cases h2 : j ≤ o + shift
    · rw [if_pos h2]
      have hall : ∀ ci : ContextItem,
          (ci.conversationID == cid &&
            ((if ci.ordinal > o then ci.ordinal + shift else ci.ordinal) == j)) = false := by
        intro ci
        by_cases hgt : ci.ordinal > o
        · rw [if_pos hgt, beq_int_false (a := ci.ordinal + shift) (by omega), Bool.and_false]
        · rw [if_neg hgt, beq_int_false (a := ci.ordinal) (b := j) (by omega), Bool.and_false]
      rw [List.filter_congr (fun ci _ => hall ci)]
      simp
    · rw [if_neg h2]
      unfold refsAt itemsAt
      congr 1
      apply List.filter_congr
      intro ci _
      by_cases hgt : ci.ordinal > o
      · rw [if_pos hgt, beq_int_congr (a := ci.ordinal + shift) (c := ci.ordinal)
          (d := j - shift) (by omega)]
      · rw [if_neg hgt, beq_int_false (a := ci.ordinal) (b := j) (by omega),
          beq_int_false (a := ci.ordinal) (b := j - shift) (by omega)]

lemma twoPhase_eq_singlePass (cid o shift : Int) (l : List ContextItem)
    (ho : 0 ≤ o) (hoT : o < tempOffset) :
    phaseBShift cid shift (phaseAShift cid o l) = singlePassShift cid o shift l := by
  unfold phaseAShift phaseBShift singlePassShift
  rw [List.map_map]
  apply List.map_congr_left
  intro ci _
  simp only [Function.comp]
  by_cases hc : ci.conversationID = cid
  · have hb : (ci.conversationID == cid) = true := by simp [hc]
    by_cases hgt : ci.ordinal > o
    · have h1 : (decide (ci.ordinal > o)) = true := by simp [hgt]
      have h2 : (decide (ci.ordinal + tempOffset ≥ tempOffset)) = true := by
        simp only [ge_iff_le, decide_eq_true_eq]
        omega
      have harith : ci.ordinal + tempOffset - tempOffset + shift = ci.ordinal + shift := by
        omega
      simp only [hb, h1, h2, Bool.and_self, Bool.true_and, eq_self_iff_true, if_true,
        harith]
    · have h1 : (decide (ci.ordinal > o)) = false := by simp [hgt]
      have h2 : (decide (ci.ordinal ≥ tempOffset)) = false := by
        simp only [ge_iff_le, decide_eq_false_iff_not, not_le]
        omega
      simp only [hb, h1, h2, Bool.and_false, Bool.false_eq_true, if_false]
  · have hb : (ci.conversationID == cid) = false := by simp [hc]
    simp only [hb, Bool.false_and, Bool.false_eq_true, if_false]

lemma refsAt_parentItems (cid : Int) (now : String) (ps : List dissolveParent)
    (b j : Int) :
    refsAt (parentItems cid now b ps) cid j =
      if b ≤ j ∧ j < b + (ps.length : Int) then
        (ps[(j - b).toNat]?).toList.map
          (fun p => ("summary", (none : Option Int), some p.summaryID))
      else [] := by
  induction ps generalizing b with
  | nil =>
      rw [if_neg (by simp only [List.length_nil]; omega)]
      rfl
  | cons p rest ih =>
      have hlen : (((p :: rest).length : Nat) : Int) = (rest.length : Int) + 1 := by
        simp
      unfold parentItems refsAt itemsAt
      rw [List.filter_cons]
      by_cases hj : j = b
      · subst hj
        have hcond : ((cid == cid) && ((j : Int) == j)) = true := by simp
        simp only [hcond, if_pos]
        rw [List.map_cons]
        have hrest := ih (j + 1)
        unfold refsAt itemsAt at hrest
        rw [hrest, if_neg (by omega), if_pos (by omega)]
        have hz : (j - j).toNat = 0 := by omega
        rw [hz]
        simp [refOf]
      · have hcond : ((cid == cid : Bool) && ((b : Int) == j)) = false := by
          rw [beq_int_false (a := b) (b := j) (by omega), Bool.and_false]
        simp only [hcond]
        rw [if_neg (by simp)]
        have hrest := ih (b + 1)
        unfold refsAt itemsAt at hrest
        rw [hrest]
        by_cases hin : b + 1 ≤ j ∧ j < b + 1 + (rest.length : Int)
        · rw [if_pos hin, if_pos (by omega)]
          have hidx : (j - b).toNat = (j - (b + 1)).toNat + 1 := by omega
          rw [hidx, List.getElem?_cons_succ]
        · rw [if_neg hin, if_neg (by omega)]

lemma countP_split {α : Type} (p q : α → Bool) (l : List α)
    (h : ∀ x ∈ l, q x = true → p x = true) :
    l.countP (fun x => p x && !q x) + l.countP q = l.countP p := by
  induction l with
  | nil => simp
  | cons a t ih =>
      rw [List.countP_cons, List.countP_cons, List.countP_cons]
      have iht := ih (fun x hx hq => h x (List.mem_cons_of_mem a hx) hq)
      by_cases hq : q a = true
      · have hp := h a (List.mem_cons_self a t) hq
        simp only [hq, hp, Bool.not_true, Bool.and_false, Bool.false_eq_true, if_false,
          eq_self_iff_true, if_true]
        omega
      · have hq2 : q a = false := by
          cases hqa : q a
          · rfl
          · exact absurd hqa hq
        rw [hq2]
        simp only [Bool.not_false, Bool.and_true, Bool.false_eq_true, if_false]
        omega

lemma refsAt_deleteTarget_ne (cid : Int) (t : dissolveTarget) (j : Int)
    (l : List ContextItem) (hne : ¬(j = t.ordinal)) :
    refsAt (l.filter (fun ci => !isDissolveTargetItem cid t ci)) cid j =
      refsAt l cid j := by
  unfold refsAt itemsAt
  rw [List.filter_filter]
  congr 1
  apply List.filter_congr
  intro ci _
  by_cases hord : ci.ordinal = j
  · have htf : isDissolveTargetItem cid t ci = false := by
      unfold isDissolveTargetItem
      rw [beq_int_false (a := ci.ordinal) (b := t.ordinal) (by omega)]
      simp
    rw [htf]
    simp
  · rw [beq_int_false (a := ci.ordinal) (b := j) hord]
    simp

lemma refsAt_deleteTarget_at (cid : Int) (t : dissolveTarget) (l : List ContextItem)
    (hcount : l.countP (isDissolveTargetItem cid t) = 1)
    (hone : (itemsAt l cid t.ordinal).length ≤ 1) :
    refsAt (l.filter (fun ci => !isDissolveTargetItem cid t ci)) cid t.ordinal = [] := by
  have himp : ∀ ci ∈ l, isDissolveTargetItem cid t ci = true →
      (ci.conversationID == cid && ci.ordinal == t.ordinal) = true := by
    intro ci _ hci
    unfold isDissolveTargetItem at hci
    simp only [Bool.and_eq_true] at hci
    simp [hci.1.1, hci.1.2]
  have hsplit : l.countP (fun ci => (ci.conversationID == cid && ci.ordinal == t.ordinal)
        && !isDissolveTargetItem cid t ci) + l.countP (isDissolveTargetItem cid t)
      = l.countP (fun ci => ci.conversationID == cid && ci.ordinal == t.ordinal) :=
    countP_split (fun ci => ci.conversationID == cid && ci.ordinal == t.ordinal)
      (isDissolveTargetItem cid t) l himp
  have hlen : (itemsAt (l.filter (fun ci => !isDissolveTargetItem cid t ci))
      cid t.ordinal).length = 0 := by
    unfold itemsAt
    rw [List.filter_filter, ← List.countP_eq_length_filter]
    unfold itemsAt at hone
    rw [← List.countP_eq_length_filter] at hone
    omega
  unfold refsAt
  rw [List.length_eq_zero.mp hlen]
  rfl

lemma length_conversationOrdinals (l : List ContextItem) (cid : Int) :
    (conversationOrdinals l cid).length =
      l.countP (fun ci => ci.conversationID == cid) := by
  unfold conversationOrdinals
  rw [List.length_map, ← List.countP_eq_length_filter]

lemma countConv_map_preserving (f : ContextItem → ContextItem)
    (hconv : ∀ ci, (f ci).conversationID = ci.conversationID)
    (l : List ContextItem) (cid : Int) :
    (l.map f).countP (fun ci => ci.conversationID == cid) =
      l.countP (fun ci => ci.conversationID == cid) := by
  rw [List.countP_map]
  apply List.countP_congr
  intro ci _
  simp [Function.comp, hconv ci]

lemma countConv_parentItems (cid : Int) (now : String) (b : Int)
    (ps : List dissolveParent) :
    (parentItems cid now b ps).countP (fun ci => ci.conversationID == cid) =
      ps.length := by
  induction ps generalizing b with
  | nil => rfl
  | cons p rest ih =>
      unfold parentItems
      rw [List.countP_cons, ih (b + 1)]
      simp

/-- Master characterization of a successful dissolve transaction: the
target ordinal lies in the conversation's range, and afterwards each
ordinal shows the old reference (below the target), the inserted parents
(in the freed window), or the old reference shifted by the parent count
minus one (above it). -/
lemma dissolveTx_refsAt (st : Store) (cid : Int) (t : dissolveTarget)
    (parents : List dissolveParent) (purge : Bool) (now : String)
    (N : Nat) (stA : Store)
    (hc : contiguousLedger st.contextItems cid N)
    (hN : (N : Int) ≤ tempOffset)
    (hp : parents ≠ [])
    (h : dissolveTx st cid t parents purge now = .ok stA) :
    (0 ≤ t.ordinal ∧ t.ordinal < (N : Int)) ∧
    ∀ j : Int,
      refsAt stA.contextItems cid j =
        if j < t.ordinal then refsAt st.contextItems cid j
        else if j < t.ordinal + (parents.length : Int) then
          (parents[(j - t.ordinal).toNat]?).toList.map
            (fun p => ("summary", (none : Option Int), some p.summaryID))
        else refsAt st.contextItems cid (j - ((parents.length : Int) - 1)) := by
  have hcount : st.contextItems.countP (isDissolveTargetItem cid t) = 1 := by
    by_contra hne
    simp only [dissolveTx] at h
    rw [if_pos hne] at h
    exact Except.noConfusion h
  have hctx : stA.contextItems =
      (if ((parents.length : Int) - 1) > 0 then
        phaseBShift cid ((parents.length : Int) - 1)
          (phaseAShift cid t.ordinal
            (st.contextItems.filter (fun ci => !isDissolveTargetItem cid t ci)))
      else st.contextItems.filter (fun ci => !isDissolveTargetItem cid t ci))
      ++ parentItems cid now t.ordinal parents := by
    simp only [dissolveTx] at h
    rw [if_neg (by omega)] at h
    by_cases hpurge : purge
    · rw [if_pos hpurge] at h
      have hinj := Except.ok.inj h
      rw [← hinj]
    · rw [if_neg hpurge] at h
      have hinj := Except.ok.inj h
      rw [← hinj]
  have hbound : 0 ≤ t.ordinal ∧ t.ordinal < (N : Int) := by
    have hpos : 0 < st.contextItems.countP (isDissolveTargetItem cid t) := by omega
    rcases List.countP_pos_iff.mp hpos with ⟨ci, hmem, hci⟩
    unfold isDissolveTargetItem at hci
    simp only [Bool.and_eq_true, beq_iff_eq] at hci
    have hords : ci.ordinal ∈ conversationOrdinals st.contextItems cid := by
      unfold conversationOrdinals
      exact List.mem_map.mpr ⟨ci, List.mem_filter.mpr ⟨hmem, by simp [hci.1.1]⟩, rfl⟩
    have hb := hc.2.2 _ hords
    rw [hci.1.2] at hb
    exact hb
  have hcnt := (contiguousLedger_iff_count st.contextItems cid N).mp hc
  have hone : (itemsAt st.contextItems cid t.ordinal).length ≤ 1 := by
    rw [hcnt]
    split <;> omega
  have hlenpos : 1 ≤ (parents.length : Int) := by
    have := List.length_pos.mpr hp
    omega
  refine ⟨hbound, ?_⟩
  intro j
  rw [hctx, refsAt_append, refsAt_parentItems]
  by_cases hsh : ((parents.length : Int) - 1) > 0
  · rw [if_pos hsh,
      twoPhase_eq_singlePass cid t.ordinal ((parents.length : Int) - 1) _ hbound.1 (by omega),
      refsAt_singlePassShift cid t.ordinal ((parents.length : Int) - 1) j _ (by omega)]
    by_cases h1 : j < t.ordinal
    · rw [if_pos h1, if_pos (show j ≤ t.ordinal from by omega),
        if_neg (show ¬(t.ordinal ≤ j ∧ j < t.ordinal + (parents.length : Int)) from by omega),
        List.append_nil, refsAt_deleteTarget_ne cid t j _ (by omega)]
    · rw [if_neg h1]
      by_cases h2 : j < t.ordinal + (parents.length : Int)
      · rw [if_pos h2,
          if_pos (show t.ordinal ≤ j ∧ j < t.ordinal + (parents.length : Int) from by omega)]
        by_cases h3 : j = t.ordinal
        · rw [if_pos (show j ≤ t.ordinal from by omega),
            (by rw [h3] : refsAt (st.contextItems.filter
                (fun ci => !isDissolveTargetItem cid t ci)) cid j
              = refsAt (st.contextItems.filter
                (fun ci => !isDissolveTargetItem cid t ci)) cid t.ordinal),
            refsAt_deleteTarget_at cid t _ hcount hone, List.nil_append]
        · rw [if_neg (show ¬ j ≤ t.ordinal from by omega),
            if_pos (show j ≤ t.ordinal + ((parents.length : Int) - 1) from by omega),
            List.nil_append]
      · rw [if_neg h2, if_neg (show ¬ j ≤ t.ordinal from by omega),
          if_neg (show ¬ j ≤ t.ordinal + ((parents.length : Int) - 1) from by omega),
          if_neg (show ¬(t.ordinal ≤ j ∧ j < t.ordinal + (parents.length : Int)) from by omega),
          List.append_nil, refsAt_deleteTarget_ne cid t _ _ (by omega)]
  · have hk1 : (parents.length : Int) = 1 := by omega
    rw [if_neg hsh]
    by_cases h1 : j < t.ordinal
    · rw [if_pos h1,
        if_neg (show ¬(t.ordinal ≤ j ∧ j < t.ordinal + (parents.length : Int)) from by omega),
        List.append_nil, refsAt_deleteTarget_ne cid t j _ (by omega)]
    · rw [if_neg h1]
      by_cases h3 : j = t.ordinal
      · rw [if_pos (show j < t.ordinal + (parents.length : Int) from by omega),
          if_pos (show t.ordinal ≤ j ∧ j < t.ordinal + (parents.length : Int) from by omega),
          (by rw [h3] : refsAt (st.contextItems.filter
              (fun ci => !isDissolveTargetItem cid t ci)) cid j
            = refsAt (st.contextItems.filter
              (fun ci => !isDissolveTargetItem cid t ci)) cid t.ordinal),
          refsAt_deleteTarget_at cid t _ hcount hone, List.nil_append]
      · rw [if_neg (show ¬ j < t.ordinal + (parents.length : Int) from by omega),
          if_neg (show ¬(t.ordinal ≤ j ∧ j < t.ordinal + (parents.length : Int)) from by omega),
          List.append_nil, refsAt_deleteTarget_ne cid t j _ (by omega),
          (by omega : j - ((parents.length : Int) - 1) = j)]

lemma length_toList_getElem {α : Type} (l : List α) (n : Nat) :
    (l[n]?).toList.length = if n < l.length then 1 else 0 := by
  by_cases h : n < l.length
  · rw [if_pos h, List.getElem?_eq_getElem h]
    rfl
  · rw [if_neg h, List.getElem?_eq_none (by omega)]
    rfl

lemma runDissolveCommand_apply_inv (st : Store) (cid : Int) (sid : String)
    (purge : Bool) (now : String) (stA : Store) (rep : dissolveReport)
    (h : runDissolveCommand st cid sid true purge now = .ok (stA, rep)) :
    ∃ t, loadDissolveTarget st cid sid = .ok t ∧
      loadDissolveParents st sid ≠ [] ∧
      dissolveTx st cid t (loadDissolveParents st sid) purge now = .ok stA ∧
      rep = dissolvePlanReport st cid t (loadDissolveParents st sid) := by
  unfold runDissolveCommand at h
  cases hlt : loadDissolveTarget st cid sid with
  | error e =>
      rw [hlt] at h
      exact Except.noConfusion h
  | ok t =>
      rw [hlt] at h
      simp only [Bool.not_true, Bool.false_eq_true, if_false] at h
      by_cases hpe : (loadDissolveParents st sid).isEmpty
      · rw [if_pos hpe] at h
        exact Except.noConfusion h
      · rw [if_neg hpe] at h
        cases htx : dissolveTx st cid t (loadDissolveParents st sid) purge now with
        | error e =>
            rw [htx] at h
            exact Except.noConfusion h
        | ok stB =>
            rw [htx] at h
            have hinj := Except.ok.inj h
            have hst : stB = stA := congrArg Prod.fst hinj
            have hrep := congrArg Prod.snd hinj
            exact ⟨t, rfl, by simpa [List.isEmpty_iff] using hpe, by rw [htx, hst],
              hrep.symm⟩

/-- Witness store: conversation 1 holds a two-parent condensed summary at
ordinal 0 and a raw message at ordinal 1. -/
def storeW : Store :=
  { summaries :=
      [ { summaryID := "sum_t", conversationID := 1, kind := "condensed", content := "t",
          tokenCount := 100, createdAt := "t0", fileIDs := none, depth := 1 },
        { summaryID := "sum_a", conversationID := 1, kind := "leaf", content := "a",
          tokenCount := 30, createdAt := "t0", fileIDs := none, depth := 0 },
        { summaryID := "sum_b", conversationID := 1, kind := "leaf", content := "b",
          tokenCount := 40, createdAt := "t0", fileIDs := none, depth := 0 } ],
    summaryParents :=
      [ { summaryID := "sum_t", parentSummaryID := "sum_a", ordinal := 0 },
        { summaryID := "sum_t", parentSummaryID := "sum_b", ordinal := 1 } ],
    summaryMessages := [],
    contextItems :=
      [ { conversationID := 1, ordinal := 0, itemType := "summary", messageID := none,
          summaryID := some "sum_t", createdAt := "t0" },
        { conversationID := 1, ordinal := 1, itemType := "message", messageID := some 7,
          summaryID := none, createdAt := "t0" } ] }

/-- The store `storeW` after dissolving sum_t with apply. -/
def storeWDissolved : Store :=
  { summaries := storeW.summaries,
    summaryParents := storeW.summaryParents,
    summaryMessages := [],
    contextItems :=
      [ { conversationID := 1, ordinal := 2, itemType := "message", messageID := some 7,
          summaryID := none, createdAt := "t0" },
        { conversationID := 1, ordinal := 0, itemType := "summary", messageID := none,
          summaryID := some "sum_a", createdAt := "tn" },
        { conversationID := 1, ordinal := 1, itemType := "summary", messageID := none,
          summaryID := some "sum_b", createdAt := "tn" } ] }

/-- The plan report of dissolving sum_t in `storeW`. -/
def reportW : dissolveReport :=
  { target := { summaryID := "sum_t", conversationID := 1, kind := "condensed",
                depth := 1, tokenCount := 100, ordinal := 0 },
    parents :=
      [ { summaryID := "sum_a", ordinal := 0, kind := "leaf", depth := 0,
          tokenCount := 30, content := "a" },
        { summaryID := "sum_b", ordinal := 1, kind := "leaf", depth := 0,
          tokenCount := 40, content := "b" } ],
    totalParentTokens := 70,
    tokenDelta := -30,
    totalItems := 1,
    shift := 1 }

lemma dissolveTx_contiguous (st : Store) (cid : Int) (t : dissolveTarget)
    (parents : List dissolveParent) (purge : Bool) (now : String)
    (N : Nat) (stA : Store)
    (hc : contiguousLedger st.contextItems cid N)
    (hN : (N : Int) ≤ tempOffset)
    (hp : parents ≠ [])
    (h : dissolveTx st cid t parents purge now = .ok stA) :
    contiguousLedger stA.contextItems cid (N + parents.length - 1) := by
  obtain ⟨hbound, hmaster⟩ := dissolveTx_refsAt st cid t parents purge now N stA hc hN hp h
  have hcnt := (contiguousLedger_iff_count st.contextItems cid N).mp hc
  have hk : 1 ≤ parents.length := List.length_pos.mpr hp
  apply (contiguousLedger_iff_count _ _ _).mpr
  intro j
  rw [← length_refsAt, hmaster j]
  by_cases h1 : j < t.ordinal
  · rw [if_pos h1, length_refsAt, hcnt j]
    split_ifs <;> omega
  · rw [if_neg h1]
    by_cases h2 : j < t.ordinal + (parents.length : Int)
    · rw [if_pos h2, List.length_map, length_toList_getElem]
      split_ifs <;> omega
    · rw [if_neg h2, length_refsAt, hcnt _]
      split_ifs <;> omega

/-- Claim C1: for a conversation whose context-item ordinals form the
contiguous range [0, N) before the operation (with N below the disjoint
staging offset the renumbering assumes), a successful applied dissolve
leaves the conversation's ordinals forming a contiguous range [0, N2)
with no gaps and no duplicates. -/
theorem dissolve_keeps_ordinals_contiguous (st : Store) (cid : Int) (sid : String)
    (purge : Bool) (now : String) (N : Nat) (stA : Store) (rep : dissolveReport)
    (hc : contiguousLedger st.contextItems cid N)
    (hN : (N : Int) ≤ tempOffset)
    (h : runDissolveCommand st cid sid true purge now = .ok (stA, rep)) :
    ∃ N2 : Nat, contiguousLedger stA.contextItems cid N2 := by
  obtain ⟨t, hlt, hp, htx, hrep⟩ := runDissolveCommand_apply_inv st cid sid purge now stA rep h
  exact ⟨N + (loadDissolveParents st sid).length - 1,
    dissolveTx_contiguous st cid t _ purge now N stA hc hN hp htx⟩

/-- Witness for claim C1: the concrete two-item ledger of `storeW` is
contiguous for N = 2, the dissolve applies successfully, and the theorem
yields contiguity of the result. -/
theorem dissolve_keeps_ordinals_contiguous_witness :
    ∃ N2 : Nat, contiguousLedger storeWDissolved.contextItems 1 N2 :=
  dissolve_keeps_ordinals_contiguous storeW 1 "sum_t" false "tn" 2 storeWDissolved
    reportW (by decide) (by decide) (by rfl)

lemma dissolveTx_inv (st : Store) (cid : Int) (t : dissolveTarget)
    (parents : List dissolveParent) (purge : Bool) (now : String) (stA : Store)
    (h : dissolveTx st cid t parents purge now = .ok stA) :
    st.contextItems.countP (isDissolveTargetItem cid t) = 1 ∧
    stA.contextItems =
      (if ((parents.length : Int) - 1) > 0 then
        phaseBShift cid ((parents.length : Int) - 1)
          (phaseAShift cid t.ordinal
            (st.contextItems.filter (fun ci => !isDissolveTargetItem cid t ci)))
      else st.contextItems.filter (fun ci => !isDissolveTargetItem cid t ci))
      ++ parentItems cid now t.ordinal parents := by
  have hcount : st.contextItems.countP (isDissolveTargetItem cid t) = 1 := by
    by_contra hne
    simp only [dissolveTx] at h
    rw [if_pos hne] at h
    exact Except.noConfusion h
  refine ⟨hcount, ?_⟩
  simp only [dissolveTx] at h
  rw [if_neg (by omega)] at h
  by_cases hpurge : purge
  · rw [if_pos hpurge] at h
    have hinj := Except.ok.inj h
    rw [← hinj]
  · rw [if_neg hpurge] at h
    have hinj := Except.ok.inj h
    rw [← hinj]

lemma dissolveTx_convCount (st : Store) (cid : Int) (t : dissolveTarget)
    (parents : List dissolveParent) (purge : Bool) (now : String) (stA : Store)
    (h : dissolveTx st cid t parents purge now = .ok stA) :
    (conversationOrdinals stA.contextItems cid).length + 1 =
      (conversationOrdinals st.contextItems cid).length + parents.length := by
  obtain ⟨hcount, hctx⟩ := dissolveTx_inv st cid t parents purge now stA h
  rw [length_conversationOrdinals, length_conversationOrdinals, hctx,
    List.countP_append, countConv_parentItems]
  have hshifted : (if ((parents.length : Int) - 1) > 0 then
        phaseBShift cid ((parents.length : Int) - 1)
          (phaseAShift cid t.ordinal
            (st.contextItems.filter (fun ci => !isDissolveTargetItem cid t ci)))
      else st.contextItems.filter
        (fun ci => !isDissolveTargetItem cid t ci)).countP
          (fun ci => ci.conversationID == cid)
      = (st.contextItems.filter
          (fun ci => !isDissolveTargetItem cid t ci)).countP
            (fun ci => ci.conversationID == cid) := by
    split
    · unfold phaseBShift phaseAShift
      rw [countConv_map_preserving _ (fun ci => by split <;> rfl),
        countConv_map_preserving _ (fun ci => by split <;> rfl)]
    · rfl
  rw [hshifted, List.countP_filter]
  have himp : ∀ ci ∈ st.contextItems, isDissolveTargetItem cid t ci = true →
      (ci.conversationID == cid) = true := by
    intro ci _ hci
    unfold isDissolveTargetItem at hci
    simp only [Bool.and_eq_true] at hci
    exact hci.1.1
  have hsplit : st.contextItems.countP
        (fun ci => (ci.conversationID == cid) && !isDissolveTargetItem cid t ci)
      + st.contextItems.countP (isDissolveTargetItem cid t)
      = st.contextItems.countP (fun ci => ci.conversationID == cid) :=
    countP_split (fun ci => ci.conversationID == cid)
      (isDissolveTargetItem cid t) st.contextItems himp
  omega

/-- The dissolve target record for the witness store. -/
def targetW : dissolveTarget :=
  { summaryID := "sum_t", conversationID := 1, kind := "condensed",
    depth := 1, tokenCount := 100, ordinal := 0 }

/-- Claim C2: a successful applied dissolve of a condensed summary at
ordinal o with k parent edges replaces the item at o with the k parents
at ordinals o..o+k-1 in ascending parent-edge-ordinal order, moves every
item formerly above o up by k-1, and changes the conversation's item
count by exactly k-1. -/
theorem dissolve_replaces_target_with_parents
    (st : Store) (cid : Int) (sid : String) (purge : Bool) (now : String)
    (N : Nat) (stA : Store) (rep : dissolveReport) (t : dissolveTarget)
    (hc : contiguousLedger st.contextItems cid N)
    (hN : (N : Int) ≤ tempOffset)
    (ht : loadDissolveTarget st cid sid = .ok t)
    (h : runDissolveCommand st cid sid true purge now = .ok (stA, rep)) :
    List.Sorted (fun a b : dissolveParent => a.ordinal ≤ b.ordinal)
      (loadDissolveParents st sid) ∧
    1 ≤ (loadDissolveParents st sid).length ∧
    (∀ j : Int, j < t.ordinal →
      refsAt stA.contextItems cid j = refsAt st.contextItems cid j) ∧
    (∀ j : Int, t.ordinal ≤ j →
      j < t.ordinal + ((loadDissolveParents st sid).length : Int) →
      refsAt stA.contextItems cid j =
        ((loadDissolveParents st sid)[(j - t.ordinal).toNat]?).toList.map
          (fun p => ("summary", (none : Option Int), some p.summaryID))) ∧
    (∀ j : Int, t.ordinal + ((loadDissolveParents st sid).length : Int) ≤ j →
      refsAt stA.contextItems cid j =
        refsAt st.contextItems cid
          (j - (((loadDissolveParents st sid).length : Int) - 1))) ∧
    (conversationOrdinals stA.contextItems cid).length =
      (conversationOrdinals st.contextItems cid).length
        + ((loadDissolveParents st sid).length - 1) := by
  obtain ⟨t2, hlt2, hp, htx, hrep⟩ := runDissolveCommand_apply_inv st cid sid purge now stA rep h
  have hteq : t2 = t := by
    rw [ht] at hlt2
    exact (Except.ok.inj hlt2).symm
  rw [hteq] at htx
  obtain ⟨hbound, hmaster⟩ := dissolveTx_refsAt st cid t (loadDissolveParents st sid)
    purge now N stA hc hN hp htx
  have hk : 1 ≤ (loadDissolveParents st sid).length := List.length_pos.mpr hp
  have hcnt1 := dissolveTx_convCount st cid t (loadDissolveParents st sid)
    purge now stA htx
  have hcountP := (dissolveTx_inv st cid t (loadDissolveParents st sid)
    purge now stA htx).1
  refine ⟨?_, hk, ?_, ?_, ?_, ?_⟩
  · haveI : IsTotal dissolveParent (fun a b => a.ordinal ≤ b.ordinal) :=
      ⟨fun a b => le_total a.ordinal b.ordinal⟩
    haveI : IsTrans dissolveParent (fun a b => a.ordinal ≤ b.ordinal) :=
      ⟨fun a b c hab hbc => le_trans hab hbc⟩
    unfold loadDissolveParents
    exact List.sorted_insertionSort _ _
  · intro j hj
    rw [hmaster j, if_pos hj]
  · intro j hj1 hj2
    rw [hmaster j, if_neg (by omega), if_pos hj2]
  · intro j hj
    rw [hmaster j, if_neg (by omega), if_neg (by omega)]
  · -- the old conversation has at least the target item
    have hst1 : 1 ≤ (conversationOrdinals st.contextItems cid).length := by
      rw [length_conversationOrdinals]
      have hmono : st.contextItems.countP (isDissolveTargetItem cid t)
          ≤ st.contextItems.countP (fun ci => ci.conversationID == cid) := by
        apply List.countP_mono_left
        intro ci _ hci
        unfold isDissolveTargetItem at hci
        simp only [Bool.and_eq_true] at hci
        exact hci.1.1
      omega
    omega

/-- Witness for claim C2 on the concrete store `storeW`: the two parents
land at ordinals 0 and 1 and the message formerly at ordinal 1 sits at
ordinal 2. -/
theorem dissolve_replaces_target_with_parents_witness :
    refsAt storeWDissolved.contextItems 1 0 = [("summary", none, some "sum_a")] ∧
    refsAt storeWDissolved.contextItems 1 1 = [("summary", none, some "sum_b")] ∧
    refsAt storeWDissolved.contextItems 1 2 = refsAt storeW.contextItems 1 1 := by
  have hmain := dissolve_replaces_target_with_parents storeW 1 "sum_t" false "tn" 2
    storeWDissolved reportW targetW (by decide) (by decide) (by rfl) (by rfl)
  refine ⟨?_, ?_, ?_⟩
  · rw [hmain.2.2.2.1 0 (by decide) (by decide)]
    rfl
  · rw [hmain.2.2.2.1 1 (by decide) (by decide)]
    rfl
  · have := hmain.2.2.2.2.1 2 (by decide)
    rw [this]
    rfl

lemma conversationOrdinals_phaseA (cid o : Int) (items : List ContextItem) :
    conversationOrdinals (phaseAShift cid o items) cid =
      (conversationOrdinals items cid).map
        (fun x => if x > o then x + tempOffset else x) := by
  unfold phaseAShift conversationOrdinals
  rw [List.filter_map, List.map_map, List.map_map]
  have hf : items.filter ((fun ci => ci.conversationID == cid) ∘ fun ci =>
        if ci.conversationID == cid && decide (ci.ordinal > o) then
          { ci with ordinal := ci.ordinal + tempOffset } else ci)
      = items.filter (fun ci => ci.conversationID == cid) := by
    apply List.filter_congr
    intro ci _
    simp only [Function.comp]
    split <;> rfl
  rw [hf]
  apply List.map_congr_left
  intro ci hmem
  have hb : (ci.conversationID == cid) = true := (List.mem_filter.mp hmem).2
  simp only [Function.comp, hb, Bool.true_and]
  by_cases hgt : ci.ordinal > o
  · simp [hgt]
  · simp [hgt]

lemma conversationOrdinals_singlePass (cid o shift : Int) (items : List ContextItem) :
    conversationOrdinals (singlePassShift cid o shift items) cid =
      (conversationOrdinals items cid).map
        (fun x => if x > o then x + shift else x) := by
  unfold singlePassShift conversationOrdinals
  rw [List.filter_map, List.map_map, List.map_map]
  have hf : items.filter ((fun ci => ci.conversationID == cid) ∘ fun ci =>
        if ci.conversationID == cid && decide (ci.ordinal > o) then
          { ci with ordinal := ci.ordinal + shift } else ci)
      = items.filter (fun ci => ci.conversationID == cid) := by
    apply List.filter_congr
    intro ci _
    simp only [Function.comp]
    split <;> rfl
  rw [hf]
  apply List.map_congr_left
  intro ci hmem
  have hb : (ci.conversationID == cid) = true := (List.mem_filter.mp hmem).2
  simp only [Function.comp, hb, Bool.true_and]
  by_cases hgt : ci.ordinal > o
  · simp [hgt]
  · simp [hgt]

/-- Claim C5: when shift is positive and the conversation's ordinals sit
below the disjoint staging range, the two-phase renumbering used by the
applied dissolve equals the single-pass shift of every ordinal above the
deleted one, and neither intermediate state (after phase A, after phase
B) holds two context items of the conversation at the same ordinal. -/
theorem twoPhase_renumbering_correct (cid o shift : Int) (items : List ContextItem)
    (ho : 0 ≤ o) (hoT : o < tempOffset) (hs : 0 < shift)
    (hnd : (conversationOrdinals items cid).Nodup) :
    phaseBShift cid shift (phaseAShift cid o items) =
      singlePassShift cid o shift items ∧
    (conversationOrdinals (phaseAShift cid o items) cid).Nodup ∧
    (conversationOrdinals
      (phaseBShift cid shift (phaseAShift cid o items)) cid).Nodup := by
  have heq := twoPhase_eq_singlePass cid o shift items ho hoT
  have hT : (0 : Int) < tempOffset := by decide
  refine ⟨heq, ?_, ?_⟩
  · rw [conversationOrdinals_phaseA]
    apply hnd.map
    intro a b hab
    simp only at hab
    by_cases ha : a > o <;> by_cases hb : b > o <;> simp only [ha, hb, if_pos, if_neg,
      if_true, if_false] at hab <;> omega
  · rw [heq, conversationOrdinals_singlePass]
    apply hnd.map
    intro a b hab
    simp only at hab
    by_cases ha : a > o <;> by_cases hb : b > o <;> simp only [ha, hb, if_pos, if_neg,
      if_true, if_false] at hab <;> omega

/-- Witness for claim C5 at the concrete ledger of `storeW`. -/
theorem twoPhase_renumbering_correct_witness :
    phaseBShift 1 1 (phaseAShift 1 0 storeW.contextItems) =
      singlePassShift 1 0 1 storeW.contextItems ∧
    (conversationOrdinals (phaseAShift 1 0 storeW.contextItems) 1).Nodup ∧
    (conversationOrdinals
      (phaseBShift 1 1 (phaseAShift 1 0 storeW.contextItems)) 1).Nodup :=
  twoPhase_renumbering_correct 1 0 1 storeW.contextItems (by decide) (by decide)
    (by decide) (by decide)

/-- A store where summary sum_a occupies two context rows with the same
conversation, ordinal and summary id, so the step-1 delete matches two
rows. -/
def storeDup : Store :=
  { summaries :=
      [ { summaryID := "sum_a", conversationID := 1, kind := "condensed", content := "a",
          tokenCount := 10, createdAt := "t0", fileIDs := none, depth := 1 },
        { summaryID := "sum_b", conversationID := 1, kind := "leaf", content := "b",
          tokenCount := 5, createdAt := "t0", fileIDs := none, depth := 0 } ],
    summaryParents :=
      [ { summaryID := "sum_a", parentSummaryID := "sum_b", ordinal := 0 } ],
    summaryMessages := [],
    contextItems :=
      [ { conversationID := 1, ordinal := 0, itemType := "summary", messageID := none,
          summaryID := some "sum_a", createdAt := "t0" },
        { conversationID := 1, ordinal := 0, itemType := "summary", messageID := none,
          summaryID := some "sum_a", createdAt := "t1" } ] }

/-- The dissolve target loaded from `storeDup`. -/
def targetDup : dissolveTarget :=
  { summaryID := "sum_a", conversationID := 1, kind := "condensed",
    depth := 1, tokenCount := 10, ordinal := 0 }

/-- Claim C3: during an applied dissolve, a step-1 delete affecting any
row count other than exactly one aborts the transaction with an error,
and any transaction error leaves the observable store exactly as it was
before the transaction began — no partial renumbering, insertion or
purge is visible. -/
theorem dissolve_tx_rollback (st : Store) (cid : Int) (sid : String)
    (purge : Bool) (now : String) (t : dissolveTarget)
    (ht : loadDissolveTarget st cid sid = .ok t) :
    (st.contextItems.countP (isDissolveTargetItem cid t) ≠ 1 →
      dissolveTx st cid t (loadDissolveParents st sid) purge now =
        .error ("expected to delete 1 context_item, deleted "
          ++ toString (st.contextItems.countP (isDissolveTargetItem cid t)))) ∧
    (∀ e, dissolveTx st cid t (loadDissolveParents st sid) purge now = .error e →
      dissolveRun st cid sid true purge now = st) := by
  constructor
  · intro hne
    simp only [dissolveTx]
    rw [if_pos hne]
  · intro e htx
    unfold dissolveRun runDissolveCommand
    rw [ht]
    simp only [Bool.not_true, Bool.false_eq_true, if_false]
    by_cases hpe : (loadDissolveParents st sid).isEmpty
    · rw [if_pos hpe]
    · rw [if_neg hpe, htx]

/-- Witness for claim C3: in a store where the target summary occupies
two context rows at the same ordinal, the delete matches two rows, the
transaction errors, and the observable store is unchanged. -/
theorem dissolve_tx_rollback_witness :
    dissolveTx storeDup 1 targetDup (loadDissolveParents storeDup "sum_a") false "tn" =
      .error ("expected to delete 1 context_item, deleted "
        ++ toString (storeDup.contextItems.countP (isDissolveTargetItem 1 targetDup))) ∧
    dissolveRun storeDup 1 "sum_a" true false "tn" = storeDup := by
  have hmain := dissolve_tx_rollback storeDup 1 "sum_a" false "tn" targetDup (by rfl)
  refine ⟨hmain.1 (by decide), hmain.2 _ (hmain.1 (by decide))⟩

/-- A store where the condensed summary sum_a sits in the active context
at two different ordinals (0 and 1) of conversation 1. -/
def storeC4 : Store :=
  { summaries :=
      [ { summaryID := "sum_a", conversationID := 1, kind := "condensed", content := "a",
          tokenCount := 10, createdAt := "t0", fileIDs := none, depth := 1 },
        { summaryID := "sum_b", conversationID := 1, kind := "leaf", content := "b",
          tokenCount := 5, createdAt := "t0", fileIDs := none, depth := 0 } ],
    summaryParents :=
      [ { summaryID := "sum_a", parentSummaryID := "sum_b", ordinal := 0 } ],
    summaryMessages := [],
    contextItems :=
      [ { conversationID := 1, ordinal := 0, itemType := "summary", messageID := none,
          summaryID := some "sum_a", createdAt := "t0" },
        { conversationID := 1, ordinal := 1, itemType := "summary", messageID := none,
          summaryID := some "sum_a", createdAt := "t0" } ] }

/-- Claim C4 counterexample: in `storeC4` the target summary occupies two
ContextItem ordinals — so it does not "occupy exactly one ordinal" — yet
the applied dissolve does not fail: it succeeds and mutates the store
(the first join row is used). -/
theorem dissolve_multi_ordinal_not_rejected :
    storeC4.contextItems.countP
      (fun ci => ci.summaryID == some "sum_a" && ci.conversationID == 1) = 2 ∧
    runDissolveCommand storeC4 1 "sum_a" true false "tn" =
      .ok (dissolveRun storeC4 1 "sum_a" true false "tn",
        dissolvePlanReport storeC4 1 targetDup (loadDissolveParents storeC4 "sum_a")) ∧
    dissolveRun storeC4 1 "sum_a" true false "tn" ≠ storeC4 := by
  refine ⟨by decide, by rfl, by decide⟩

/-- Claim C4 (amended): dissolve fails with a distinct error and mutates
nothing when the target summary has no ContextItem row in the given
conversation, when its kind is not condensed, and when it has zero parent
edges; each failure happens before any write.  (The claim's "exactly one
ordinal" is weakened to "at least one": a target occupying several
ordinals is not rejected — the first join row is dissolved.) -/
theorem dissolve_precondition_failures
    (st : Store) (cid : Int) (sid : String) (apply purge : Bool) (now : String) :
    (dissolveTargetRows st cid sid = [] →
      runDissolveCommand st cid sid apply purge now =
        .error ("summary " ++ sid ++ " not found in active context for conversation "
          ++ toString cid) ∧
      dissolveRun st cid sid apply purge now = st) ∧
    (∀ s ci rest, dissolveTargetRows st cid sid = (s, ci) :: rest →
      ¬ s.kind = "condensed" →
      runDissolveCommand st cid sid apply purge now =
        .error ("summary " ++ sid ++ " is a " ++ s.kind ++ " (depth "
          ++ toString s.depth
          ++ "), not condensed — only condensed summaries can be dissolved") ∧
      dissolveRun st cid sid apply purge now = st) ∧
    (∀ t, loadDissolveTarget st cid sid = .ok t →
      loadDissolveParents st sid = [] →
      runDissolveCommand st cid sid apply purge now =
        .error ("summary " ++ sid ++ " has no parent summaries — nothing to dissolve") ∧
      dissolveRun st cid sid apply purge now = st) := by
  refine ⟨?_, ?_, ?_⟩
  · intro h0
    have herr : loadDissolveTarget st cid sid =
        .error ("summary " ++ sid ++ " not found in active context for conversation "
          ++ toString cid) := by
      unfold loadDissolveTarget
      rw [h0]
    constructor
    · unfold runDissolveCommand
      rw [herr]
    · unfold dissolveRun runDissolveCommand
      rw [herr]
  · intro s ci rest heq hkind
    have herr : loadDissolveTarget st cid sid =
        .error ("summary " ++ sid ++ " is a " ++ s.kind ++ " (depth "
          ++ toString s.depth
          ++ "), not condensed — only condensed summaries can be dissolved") := by
      unfold loadDissolveTarget
      rw [heq]
      simp only [if_pos hkind]
    constructor
    · unfold runDissolveCommand
      rw [herr]
    · unfold dissolveRun runDissolveCommand
      rw [herr]
  · intro t ht hp
    constructor
    · unfold runDissolveCommand
      rw [ht, hp]
      rfl
    · unfold dissolveRun runDissolveCommand
      rw [ht, hp]
      rfl

/-- Witness for the amended claim C4: on an empty store the dissolve of a
missing summary fails with the "not in active context" error and leaves
the store untouched. -/
theorem dissolve_precondition_failures_witness :
    runDissolveCommand (Store.mk [] [] [] []) 0 "sum_x" true false "tn" =
      .error ("summary " ++ "sum_x" ++ " not found in active context for conversation "
        ++ toString (0 : Int)) ∧
    dissolveRun (Store.mk [] [] [] []) 0 "sum_x" true false "tn" =
      Store.mk [] [] [] [] :=
  (dissolve_precondition_failures (Store.mk [] [] [] []) 0 "sum_x" true false "tn").1
    (by decide)

lemma runDissolveCommand_plan_inv (st : Store) (cid : Int) (sid : String)
    (purge : Bool) (now : String) (stP : Store) (repP : dissolveReport)
    (h : runDissolveCommand st cid sid false purge now = .ok (stP, repP)) :
    stP = st ∧ ∃ t, loadDissolveTarget st cid sid = .ok t ∧
      repP = dissolvePlanReport st cid t (loadDissolveParents st sid) := by
  unfold runDissolveCommand at h
  cases hlt : loadDissolveTarget st cid sid with
  | error e =>
      rw [hlt] at h
      exact Except.noConfusion h
  | ok t =>
      rw [hlt] at h
      simp only [Bool.not_false, eq_self_iff_true, if_true] at h
      by_cases hpe : (loadDissolveParents st sid).isEmpty
      · rw [if_pos hpe] at h
        exact Except.noConfusion h
      · rw [if_neg hpe] at h
        have hinj := Except.ok.inj h
        exact ⟨(congrArg Prod.fst hinj).symm, t, rfl, (congrArg Prod.snd hinj).symm⟩

/-- Claim C6: the default plan mode never writes — for every invocation
with apply = false the observable store is unchanged — while a successful
plan produces exactly the report a successful applied run produces. -/
theorem dissolve_plan_mode_pure
    (st : Store) (cid : Int) (sid : String) (purge : Bool) (now : String) :
    dissolveRun st cid sid false purge now = st ∧
    (∀ stP repP, runDissolveCommand st cid sid false purge now = .ok (stP, repP) →
      stP = st ∧
      ∀ stA repA, runDissolveCommand st cid sid true purge now = .ok (stA, repA) →
        repA = repP) := by
  constructor
  · unfold dissolveRun
    cases hrc : runDissolveCommand st cid sid false purge now with
    | error e => rfl
    | ok pr =>
        obtain ⟨h1, -⟩ := runDissolveCommand_plan_inv st cid sid purge now pr.1 pr.2
          (by rw [hrc])
        exact h1
  · intro stP repP h
    obtain ⟨h1, t, hlt, hrepP⟩ := runDissolveCommand_plan_inv st cid sid purge now
      stP repP h
    refine ⟨h1, ?_⟩
    intro stA repA hA
    obtain ⟨t2, hlt2, hp2, htx2, hrepA⟩ := runDissolveCommand_apply_inv st cid sid
      purge now stA repA hA
    have hteq : t2 = t := by
      rw [hlt] at hlt2
      exact (Except.ok.inj hlt2).symm
    rw [hrepA, hrepP, hteq]

/-- Witness for claim C6: a concrete plan run on `storeW` leaves the
store unchanged and reports exactly what the applied run reports. -/
theorem dissolve_plan_mode_pure_witness :
    dissolveRun storeW 1 "sum_t" false false "tn" = storeW ∧
    reportW = reportW := by
  have hmain := dissolve_plan_mode_pure storeW 1 "sum_t" false "tn"
  refine ⟨hmain.1, ?_⟩
  have hplan : runDissolveCommand storeW 1 "sum_t" false false "tn" =
      .ok (storeW, reportW) := by rfl
  have happly : runDissolveCommand storeW 1 "sum_t" true false "tn" =
      .ok (storeWDissolved, reportW) := by rfl
  exact ((hmain.2 storeW reportW hplan).2 storeWDissolved reportW happly).symm ▸ rfl

/-! ## Graph Reader (summary DAG reconstruction and display traversal) -/

/-- One summary node of the in-memory DAG (summaryNode in the source).
Terminal sanitization of content is display plumbing the spec rules out
of scope, so content is carried verbatim. -/
structure summaryNode where
  id : String
  kind : String
  content : String
  createdAt : String
  tokenCount : Int
  children : List String
  expanded : Bool
deriving DecidableEq, Repr

/-- The in-memory DAG of one conversation (summaryGraph in the source);
the node map is carried as an id-keyed association list. -/
structure summaryGraph where
  conversationID : Int
  roots : List String
  nodes : List (String × summaryNode)
deriving DecidableEq, Repr

/-- One visible row of the flattened summary tree. -/
structure summaryRow where
  summaryID : String
  depth : Nat
deriving DecidableEq, Repr

/-- loadSummaryNodes: the conversation's summaries as an id-keyed node
list; children start empty and nodes start collapsed. -/
def loadSummaryNodes (st : Store) (cid : Int) : List (String × summaryNode) :=
  (st.summaries.filter (fun s => s.conversationID == cid)).map
    (fun s => (s.summaryID,
      { id := s.summaryID, kind := s.kind, content := s.content,
        createdAt := s.createdAt, tokenCount := s.tokenCount,
        children := [], expanded := false }))

/-- The keys of the loaded node map. -/
def nodeIDs (st : Store) (cid : Int) : List String :=
  (loadSummaryNodes st cid).map Prod.fst

/-- The rows of populateSummaryChildren's query: summary_parents joined
with the child summary restricted to the conversation, as
(parent id, child id) pairs. -/
def summaryEdgeRows (st : Store) (cid : Int) : List (String × String) :=
  st.summaryParents.flatMap (fun sp =>
    (st.summaries.filter (fun s =>
      s.summaryID == sp.summaryID && s.conversationID == cid)).map
      (fun _ => (sp.parentSummaryID, sp.summaryID)))

/-- The child id set built by populateSummaryChildren: a child is
recorded only when both edge endpoints are loaded nodes. -/
def populateChildSet (nodeIds : List String) (rows : List (String × String)) :
    List String :=
  rows.filterMap (fun pc =>
    if nodeIds.contains pc.1 && nodeIds.contains pc.2 then some pc.2 else none)

/-- The children appended to node `pid` by populateSummaryChildren, in
row order: rows naming `pid` as parent whose endpoints are both loaded. -/
def childrenOf (st : Store) (cid : Int) (pid : String) : List String :=
  (summaryEdgeRows st cid).filterMap (fun pc =>
    if pc.1 == pid && (nodeIDs st cid).contains pc.1
        && (nodeIDs st cid).contains pc.2
    then some pc.2 else none)

/-- findSummaryRoots: the node ids not recorded as children; when that
set is empty, every node id is returned as a root. -/
def findSummaryRoots (nodeIds : List String) (childSet : List String) : List String :=
  let roots := nodeIds.filter (fun id => !childSet.contains id)
  if roots.isEmpty then nodeIds else roots

/-- A summary id owned by conversation `cid` (the spec's "belongs to the
conversation"). -/
def belongsTo (st : Store) (cid : Int) (id : String) : Prop :=
  ∃ s ∈ st.summaries, s.summaryID = id ∧ s.conversationID = cid

/-- The spec's root notion: a summary of the conversation that is not the
child endpoint of any parent edge whose two endpoints both belong to the
conversation. -/
def isSpecRoot (st : Store) (cid : Int) (id : String) : Prop :=
  belongsTo st cid id ∧
  ¬ ∃ e ∈ st.summaryParents, e.summaryID = id ∧
      belongsTo st cid e.parentSummaryID ∧ belongsTo st cid e.summaryID

lemma mem_keys_of_lookup {β : Type} (l : List (String × β)) (a : String) (b : β)
    (h : l.lookup a = some b) : a ∈ l.map Prod.fst := by
  induction l with
  | nil => exact Option.noConfusion h
  | cons kv t ih =>
      rw [List.lookup_cons] at h
      by_cases hk : a == kv.1
      · have : a = kv.1 := by simpa using hk
        rw [List.map_cons]
        exact this ▸ List.mem_cons_self _ _
      · rw [List.map_cons]
        refine List.mem_cons_of_mem _ (ih ?_)
        cases hbe : (a == kv.1) with
        | true => exact absurd hbe hk
        | false =>
            rw [hbe] at h
            exact h

lemma contains_iff_mem (l : List String) (a : String) : l.contains a = true ↔ a ∈ l :=
  List.elem_iff

lemma contains_eq_false_iff (l : List String) (a : String) :
    l.contains a = false ↔ ¬ a ∈ l := by
  constructor
  · intro h hmem
    rw [(contains_iff_mem l a).mpr hmem] at h
    exact Bool.noConfusion h
  · intro h
    cases hc : l.contains a with
    | false => rfl
    | true => exact absurd ((contains_iff_mem l a).mp hc) h

lemma length_filter_path_lt (keys : List String) (id : String) (path : List String)
    (hid : id ∈ keys) (hpath : ¬ id ∈ path) :
    (keys.filter (fun x => !(id :: path).contains x)).length <
      (keys.filter (fun x => !path.contains x)).length := by
  induction keys with
  | nil => exact absurd hid (List.not_mem_nil id)
  | cons k t ih =>
      rw [List.filter_cons, List.filter_cons]
      have hmono : (t.filter (fun x => !(id :: path).contains x)).length ≤
          (t.filter (fun x => !path.contains x)).length := by
        rw [← List.countP_eq_length_filter, ← List.countP_eq_length_filter]
        apply List.countP_mono_left
        intro x _ hx
        rw [Bool.not_eq_true'] at hx ⊢
        rw [contains_eq_false_iff] at hx
        rw [contains_eq_false_iff]
        intro hmem
        exact hx (List.mem_cons_of_mem id hmem)
      by_cases hk : k = id
      · subst hk
        have h1 : (!(k :: path).contains k) = false := by
          rw [Bool.not_eq_false']
          exact (contains_iff_mem _ _).mpr (List.mem_cons_self k path)
        have h2 : (!path.contains k) = true := by
          rw [Bool.not_eq_true']
          exact (contains_eq_false_iff _ _).mpr hpath
        rw [h1, h2, if_neg (fun hcon => Bool.noConfusion hcon), if_pos rfl,
          List.length_cons]
        omega
      · have hidt : id ∈ t := by
          rcases List.mem_cons.mp hid with h | h
          · exact absurd h.symm hk
          · exact h
        have hsame : (!(id :: path).contains k) = (!path.contains k) := by
          cases hkp : path.contains k with
          | true =>
              have : (id :: path).contains k = true :=
                (contains_iff_mem _ _).mpr
                  (List.mem_cons_of_mem id ((contains_iff_mem _ _).mp hkp))
              rw [this]
          | false =>
              have : (id :: path).contains k = false := by
                rw [contains_eq_false_iff]
                intro hmem
                rcases List.mem_cons.mp hmem with h | h
                · exact hk h
                · exact (contains_eq_false_iff _ _).mp hkp h
              rw [this]
        rw [hsame]
        have iht := ih hidt
        by_cases hkp : (!path.contains k) = true
        · rw [if_pos hkp, if_pos hkp, List.length_cons, List.length_cons]
          omega
        · rw [if_neg hkp, if_neg hkp]
          exact iht

/-- sortSummaryIDs comparison: by node creation time, ties broken by id;
ids missing from the node map compare by raw id. -/
def summaryIDLess (nodes : List (String × summaryNode)) (a b : String) : Bool :=
  match nodes.lookup a, nodes.lookup b with
  | some l, some r =>
      if l.createdAt == r.createdAt then l.id < r.id else l.createdAt < r.createdAt
  | _, _ => a < b

/-- sortSummaryIDs: deterministic ordering of id lists. -/
def sortSummaryIDs (nodes : List (String × summaryNode)) (ids : List String) :
    List String :=
  ids.insertionSort (fun a b => summaryIDLess nodes a b = true)

/-- loadSummaryGraph: load the conversation's nodes, populate children
and the child set, compute roots, and sort roots and children. -/
def loadSummaryGraph (st : Store) (cid : Int) : summaryGraph :=
  let nodes := loadSummaryNodes st cid
  if nodes.isEmpty then { conversationID := cid, roots := [], nodes := [] }
  else
    { conversationID := cid,
      roots := sortSummaryIDs nodes
        (findSummaryRoots (nodeIDs st cid)
          (populateChildSet (nodeIDs st cid) (summaryEdgeRows st cid))),
      nodes := nodes.map (fun kv =>
        (kv.1, { kv.2 with children := sortSummaryIDs nodes (childrenOf st cid kv.1) })) }

/-- The walk closure of buildSummaryRows: emit the node, and when it is
expanded descend into its children with the node added to the path-local
visited set; a node already on the path, or absent from the node map, is
skipped. -/
def walkRows (g : summaryGraph) (path : List String) (id : String) (depth : Nat) :
    List summaryRow :=
  if hpath : path.contains id then []
  else
    match hlook : g.nodes.lookup id with
    | none => []
    | some node =>
        { summaryID := id, depth := depth } ::
          (if !node.expanded then []
           else node.children.flatMap (fun c => walkRows g (id :: path) c (depth + 1)))
termination_by ((g.nodes.map Prod.fst).filter (fun x => !path.contains x)).length
decreasing_by
  apply length_filter_path_lt
  · exact mem_keys_of_lookup g.nodes id node hlook
  · intro hmem
    exact hpath ((contains_iff_mem path id).mpr hmem)

/-- buildSummaryRows: flatten the graph from its roots, each root walked
with a fresh empty path. -/
def buildSummaryRows (g : summaryGraph) : List summaryRow :=
  g.roots.flatMap (fun r => walkRows g [] r 0)

lemma walkRows_skip (g : summaryGraph) (path : List String) (id : String) (d : Nat)
    (h : path.contains id = true) : walkRows g path id d = [] := by
  rw [walkRows]
  rw [dif_pos h]

lemma walkRows_depth_le (g : summaryGraph) :
    ∀ (n : Nat) (path : List String) (id : String) (d : Nat),
      ((g.nodes.map Prod.fst).filter (fun x => !path.contains x)).length ≤ n →
      ∀ r ∈ walkRows g path id d,
        r.depth ≤ d + ((g.nodes.map Prod.fst).filter (fun x => !path.contains x)).length := by
  intro n
  induction n with
  | zero =>
      intro path id d hle r hr
      rw [walkRows] at hr
      by_cases hpath : path.contains id = true
      · rw [dif_pos hpath] at hr
        exact absurd hr (List.not_mem_nil r)
      · rw [dif_neg hpath] at hr
        cases hlook : g.nodes.lookup id with
        | none =>
            rw [hlook] at hr
            exact absurd hr (List.not_mem_nil r)
        | some node =>
            exfalso
            have hidk : id ∈ g.nodes.map Prod.fst :=
              mem_keys_of_lookup g.nodes id node hlook
            have hmemf : id ∈ (g.nodes.map Prod.fst).filter
                (fun x => !path.contains x) := by
              rw [List.mem_filter]
              refine ⟨hidk, ?_⟩
              rw [Bool.not_eq_true']
              cases hc : path.contains id with
              | false => rfl
              | true => exact absurd hc hpath
            have := List.length_pos.mpr (List.ne_nil_of_mem hmemf)
            omega
  | succ n ih =>
      intro path id d hle r hr
      rw [walkRows] at hr
      by_cases hpath : path.contains id = true
      · rw [dif_pos hpath] at hr
        exact absurd hr (List.not_mem_nil r)
      · rw [dif_neg hpath] at hr
        cases hlook : g.nodes.lookup id with
        | none =>
            rw [hlook] at hr
            exact absurd hr (List.not_mem_nil r)
        | some node =>
            rw [hlook] at hr
            rcases List.mem_cons.mp hr with hhead | htail
            · have hrd : r.depth = d := by rw [hhead]
              omega
            · by_cases hexp : (!node.expanded) = true
              · rw [if_pos hexp] at htail
                exact absurd htail (List.not_mem_nil r)
              · rw [if_neg hexp] at htail
                rcases List.mem_flatMap.mp htail with ⟨c, _, hrc⟩
                have hmem_id : ¬ id ∈ path := by
                  intro hmem
                  exact hpath ((contains_iff_mem path id).mpr hmem)
                have hlt := length_filter_path_lt (g.nodes.map Prod.fst) id path
                  (mem_keys_of_lookup g.nodes id node hlook) hmem_id
                have hle2 : ((g.nodes.map Prod.fst).filter
                    (fun x => !(id :: path).contains x)).length ≤ n := by omega
                have hdep := ih (id :: path) c (d + 1) hle2 r hrc
                omega

/-- Claim C8: the display traversal is total and bounded: a node already
on the current path is skipped outright, and every emitted row's depth is
at most the number of nodes in the graph, so the flattening of any
summary graph — cyclic ones included — terminates with a finite row
list. -/
theorem buildSummaryRows_terminates (g : summaryGraph) :
    (∀ (path : List String) (id : String) (d : Nat),
      path.contains id = true → walkRows g path id d = []) ∧
    (∀ r ∈ buildSummaryRows g, r.depth ≤ g.nodes.length) := by
  constructor
  · exact fun path id d h => walkRows_skip g path id d h
  · intro r hr
    rcases List.mem_flatMap.mp hr with ⟨root, _, hrw⟩
    have hfull : ((g.nodes.map Prod.fst).filter
        (fun x => !([] : List String).contains x)).length = g.nodes.length := by
      have : ∀ x ∈ g.nodes.map Prod.fst, (!([] : List String).contains x) = true := by
        intro x _
        rfl
      rw [List.filter_eq_self.mpr this, List.length_map]
    have := walkRows_depth_le g (g.nodes.length) [] root 0 (by omega) r hrw
    omega

/-- A two-node summary graph with an injected cycle: na and nb each list
the other as a child, and both are expanded. -/
def graphCyc : summaryGraph :=
  { conversationID := 1,
    roots := ["na"],
    nodes :=
      [ ("na", { id := "na", kind := "condensed", content := "a", createdAt := "t0",
                 tokenCount := 1, children := ["nb"], expanded := true }),
        ("nb", { id := "nb", kind := "condensed", content := "b", createdAt := "t0",
                 tokenCount := 1, children := ["na"], expanded := true }) ] }

/-- Witness for claim C8 on a concrete two-node cyclic graph (a and b
each list the other as child): the walk of b from path [a] with a on the
path is cut off, and every row of the flattened graph has depth at most
2. -/
theorem buildSummaryRows_terminates_witness :
    walkRows graphCyc ["nb"] "nb" 1 = [] ∧
    ∀ r ∈ buildSummaryRows graphCyc, r.depth ≤ graphCyc.nodes.length := by
  have hmain := buildSummaryRows_terminates graphCyc
  exact ⟨hmain.1 ["nb"] "nb" 1 (by decide), hmain.2⟩

instance (st : Store) (cid : Int) (id : String) : Decidable (belongsTo st cid id) := by
  unfold belongsTo
  infer_instance

instance (st : Store) (cid : Int) (id : String) : Decidable (isSpecRoot st cid id) := by
  unfold isSpecRoot
  infer_instance

lemma mem_nodeIDs_iff (st : Store) (cid : Int) (id : String) :
    id ∈ nodeIDs st cid ↔ belongsTo st cid id := by
  unfold nodeIDs loadSummaryNodes belongsTo
  rw [List.map_map]
  simp only [List.mem_map, Function.comp, List.mem_filter, beq_iff_eq]
  tauto

lemma mem_summaryEdgeRows_iff (st : Store) (cid : Int) (p c : String) :
    (p, c) ∈ summaryEdgeRows st cid ↔
      ∃ e ∈ st.summaryParents, e.parentSummaryID = p ∧ e.summaryID = c ∧
        belongsTo st cid c := by
  unfold summaryEdgeRows belongsTo
  simp only [List.mem_flatMap, List.mem_map, List.mem_filter, Bool.and_eq_true,
    beq_iff_eq, Prod.mk.injEq]
  constructor
  · rintro ⟨sp, hsp, s, hhyp, hpair⟩
    exact ⟨sp, hsp, hpair.1, hpair.2,
      s, hhyp.1, by rw [hhyp.2.1, hpair.2], hhyp.2.2⟩
  · rintro ⟨e, he, hp, hc, s, hs, hsid, hconv⟩
    exact ⟨e, he, s, ⟨hs, by rw [hsid, hc], hconv⟩, hp, hc⟩

lemma mem_populateChildSet_iff (st : Store) (cid : Int) (c : String) :
    c ∈ populateChildSet (nodeIDs st cid) (summaryEdgeRows st cid) ↔
      ∃ e ∈ st.summaryParents, e.summaryID = c ∧
        belongsTo st cid e.parentSummaryID ∧ belongsTo st cid e.summaryID := by
  unfold populateChildSet
  rw [List.mem_filterMap]
  constructor
  · rintro ⟨pc, hmem, hif⟩
    by_cases hcond : ((nodeIDs st cid).contains pc.1
        && (nodeIDs st cid).contains pc.2) = true
    · rw [if_pos hcond] at hif
      have hc2 : pc.2 = c := Option.some.inj hif
      simp only [Bool.and_eq_true] at hcond
      have hrow : (pc.1, pc.2) ∈ summaryEdgeRows st cid := by
        rw [show (pc.1, pc.2) = pc from rfl]
        exact hmem
      rcases (mem_summaryEdgeRows_iff st cid pc.1 pc.2).mp hrow with
        ⟨e, he, hep, hec, hbc⟩
      refine ⟨e, he, by rw [hec, hc2], ?_, by rw [hec, hc2]; rw [← hc2]; exact hbc⟩
      rw [hep]
      exact (mem_nodeIDs_iff st cid pc.1).mp ((contains_iff_mem _ _).mp hcond.1)
    · rw [if_neg hcond] at hif
      exact Option.noConfusion hif
  · rintro ⟨e, he, hec, hbp, hbc⟩
    refine ⟨(e.parentSummaryID, e.summaryID), ?_, ?_⟩
    · exact (mem_summaryEdgeRows_iff st cid _ _).mpr ⟨e, he, rfl, rfl, hbc⟩
    · have h1 : (nodeIDs st cid).contains e.parentSummaryID = true :=
        (contains_iff_mem _ _).mpr ((mem_nodeIDs_iff st cid _).mpr hbp)
      have h2 : (nodeIDs st cid).contains e.summaryID = true :=
        (contains_iff_mem _ _).mpr ((mem_nodeIDs_iff st cid _).mpr hbc)
      rw [if_pos (by rw [h1, h2]; rfl)]
      rw [hec]

/-- Claim C7: the Graph Reader's root set equals the conversation's
summaries that are not the child endpoint of any parent edge whose two
endpoints both belong to the conversation; when that set is empty, every
summary of the conversation is returned as a root. -/
theorem findSummaryRoots_matches_spec (st : Store) (cid : Int) :
    ((∃ x, isSpecRoot st cid x) →
      ∀ id, id ∈ findSummaryRoots (nodeIDs st cid)
          (populateChildSet (nodeIDs st cid) (summaryEdgeRows st cid)) ↔
        isSpecRoot st cid id) ∧
    ((¬ ∃ x, isSpecRoot st cid x) →
      ∀ id, id ∈ findSummaryRoots (nodeIDs st cid)
          (populateChildSet (nodeIDs st cid) (summaryEdgeRows st cid)) ↔
        belongsTo st cid id) := by
  have hroot_iff : ∀ id, id ∈ (nodeIDs st cid).filter
      (fun id => !(populateChildSet (nodeIDs st cid)
        (summaryEdgeRows st cid)).contains id) ↔ isSpecRoot st cid id := by
    intro id
    rw [List.mem_filter, mem_nodeIDs_iff]
    unfold isSpecRoot
    constructor
    · rintro ⟨hb, hnc⟩
      refine ⟨hb, fun hex => ?_⟩
      have hmem : id ∈ populateChildSet (nodeIDs st cid) (summaryEdgeRows st cid) :=
        (mem_populateChildSet_iff st cid id).mpr hex
      rw [Bool.not_eq_true'] at hnc
      exact (contains_eq_false_iff _ _).mp hnc hmem
    · rintro ⟨hb, hnex⟩
      refine ⟨hb, ?_⟩
      rw [Bool.not_eq_true']
      rw [contains_eq_false_iff]
      intro hmem
      exact hnex ((mem_populateChildSet_iff st cid id).mp hmem)
  unfold findSummaryRoots
  constructor
  · rintro ⟨x, hx⟩ id
    rw [if_neg (fun hemp => ?_)]
    · exact hroot_iff id
    · rw [List.isEmpty_iff] at hemp
      have hxm := (hroot_iff x).mpr hx
      rw [hemp] at hxm
      exact List.not_mem_nil x hxm
  · intro hno id
    rw [if_pos ?_]
    · exact mem_nodeIDs_iff st cid id
    · rw [List.isEmpty_iff]
      rcases hfe : (nodeIDs st cid).filter
          (fun id => !(populateChildSet (nodeIDs st cid)
            (summaryEdgeRows st cid)).contains id) with _ | ⟨y, t⟩
      · rfl
      · exfalso
        have hym : y ∈ (nodeIDs st cid).filter
            (fun id => !(populateChildSet (nodeIDs st cid)
              (summaryEdgeRows st cid)).contains id) := by
          rw [hfe]
          exact List.mem_cons_self y t
        exact hno ⟨y, (hroot_iff y).mp hym⟩

/-- Witness for claim C7: in `storeW` the leaf sum_a is a spec root (it
is never a child endpoint) and it is returned by findSummaryRoots. -/
theorem findSummaryRoots_matches_spec_witness :
    "sum_a" ∈ findSummaryRoots (nodeIDs storeW 1)
      (populateChildSet (nodeIDs storeW 1) (summaryEdgeRows storeW 1)) :=
  (((findSummaryRoots_matches_spec storeW 1).1 ⟨"sum_a", by decide⟩ "sum_a")).mpr
    (by decide)

lemma keys_loadSummaryGraph (st : Store) (cid : Int) :
    (loadSummaryGraph st cid).nodes.map Prod.fst = nodeIDs st cid := by
  unfold loadSummaryGraph
  by_cases hemp : (loadSummaryNodes st cid).isEmpty
  · rw [if_pos hemp]
    rw [List.isEmpty_iff] at hemp
    unfold nodeIDs
    rw [hemp]
  · rw [if_neg hemp]
    unfold nodeIDs
    rw [List.map_map]
    rfl

/-- Claim C10: the reconstructed DAG is self-contained.  Every id in a
node's populated children list is a loaded node id, every id in the
child set used for root computation is a loaded node id, and in the
graph loadSummaryGraph returns every id in any node's (sorted) children
list is a key of the returned node map — edges whose parent or child is
not among the conversation's loaded summaries are dropped. -/
theorem summaryGraph_children_self_contained (st : Store) (cid : Int) :
    (∀ pid c, c ∈ childrenOf st cid pid → c ∈ nodeIDs st cid) ∧
    (∀ c, c ∈ populateChildSet (nodeIDs st cid) (summaryEdgeRows st cid) →
      c ∈ nodeIDs st cid) ∧
    (∀ kv ∈ (loadSummaryGraph st cid).nodes, ∀ c ∈ kv.2.children,
      c ∈ (loadSummaryGraph st cid).nodes.map Prod.fst) := by
  have hchild : ∀ pid c, c ∈ childrenOf st cid pid → c ∈ nodeIDs st cid := by
    intro pid c hc
    unfold childrenOf at hc
    rw [List.mem_filterMap] at hc
    rcases hc with ⟨pc, _, hif⟩
    by_cases hcond : (pc.1 == pid && (nodeIDs st cid).contains pc.1
        && (nodeIDs st cid).contains pc.2) = true
    · rw [if_pos hcond] at hif
      have hc2 : pc.2 = c := Option.some.inj hif
      simp only [Bool.and_eq_true] at hcond
      rw [← hc2]
      exact (contains_iff_mem _ _).mp hcond.2
    · rw [if_neg hcond] at hif
      exact Option.noConfusion hif
  refine ⟨hchild, ?_, ?_⟩
  · intro c hc
    unfold populateChildSet at hc
    rw [List.mem_filterMap] at hc
    rcases hc with ⟨pc, _, hif⟩
    by_cases hcond : ((nodeIDs st cid).contains pc.1
        && (nodeIDs st cid).contains pc.2) = true
    · rw [if_pos hcond] at hif
      have hc2 : pc.2 = c := Option.some.inj hif
      simp only [Bool.and_eq_true] at hcond
      rw [← hc2]
      exact (contains_iff_mem _ _).mp hcond.2
    · rw [if_neg hcond] at hif
      exact Option.noConfusion hif
  · intro kv hkv c hc
    rw [keys_loadSummaryGraph]
    unfold loadSummaryGraph at hkv
    by_cases hemp : (loadSummaryNodes st cid).isEmpty
    · rw [if_pos hemp] at hkv
      exact absurd hkv (List.not_mem_nil kv)
    · rw [if_neg hemp] at hkv
      simp only [List.mem_map] at hkv
      rcases hkv with ⟨kv0, _, hkveq⟩
      have hch : kv.2.children = sortSummaryIDs (loadSummaryNodes st cid)
          (childrenOf st cid kv0.1) := by
        rw [← hkveq]
      rw [hch] at hc
      unfold sortSummaryIDs at hc
      have hperm := List.perm_insertionSort
        (fun a b => summaryIDLess (loadSummaryNodes st cid) a b = true)
        (childrenOf st cid kv0.1)
      exact hchild kv0.1 c (hperm.mem_iff.mp hc)

/-- Witness for claim C10: in `storeW` the child sum_t recorded under the
parent node sum_a is itself a loaded node id. -/
theorem summaryGraph_children_self_contained_witness :
    "sum_t" ∈ nodeIDs storeW 1 :=
  (summaryGraph_children_self_contained storeW 1).1 "sum_a" "sum_t" (by decide)

/-! ## Transplant engine

The transplant implementation is not among the source files; it is
specified by src/specs/transplant.md and spec.md §4.3.  Every definition
in this section is modelled from those documents. -/

/-- Modelled from the spec: step 1 of transplant.md — the source
conversation's summary-type context items in ordinal order, joined with
their summary rows. -/
def sourceContextSummaries (st : Store) (source : Int) :
    List (ContextItem × Summary) :=
  ((st.contextItems.filter (fun ci =>
      ci.conversationID == source && ci.itemType == "summary")).insertionSort
    (fun a b => a.ordinal ≤ b.ordinal)).flatMap
    (fun ci =>
      (st.summaries.filter (fun s => some s.summaryID == ci.summaryID)).map
        (fun s => (ci, s)))

/-- Modelled from the spec: one pass of the recursive ancestor walk of
step 2 — collect the parent of every edge whose child is already
collected. -/
def closureStep (st : Store) (ids : List String) : List String :=
  st.summaryParents.foldl
    (fun acc e =>
      if acc.contains e.summaryID && !acc.contains e.parentSummaryID then
        acc ++ [e.parentSummaryID]
      else acc) ids

/-- Modelled from the spec: the deduplicated ancestor closure of step 2,
iterating the walk until no new summary can appear (one pass per parent
edge suffices). -/
def ancestorClosure (st : Store) (start : List String) : List String :=
  (closureStep st)^[st.summaryParents.length + 1] start

/-- Modelled from the spec: step 3 — topological order by ascending
depth, ties by creation time. -/
def transplantTopo (st : Store) (ids : List String) : List Summary :=
  (st.summaries.filter (fun s => ids.contains s.summaryID)).insertionSort
    (fun a b => a.depth < b.depth ∨ (a.depth = b.depth ∧ a.createdAt ≤ b.createdAt))

/-- State of the copy loop of step 4: the rows created so far, the
old-to-new id map, and every id taken (existing and minted). -/
structure transplantCopyState where
  newSummaries : List Summary
  newMessageEdges : List SummaryMessageEdge
  newParentEdges : List SummaryParentEdge
  mapping : List (String × String)
  used : List String
deriving DecidableEq, Repr

/-- Modelled from the spec: remap one copied summary's parent edges
through the old-to-new map; an unresolvable parent is a
structural-integrity failure rather than a silently skipped edge. -/
def remapParents (mapping : List (String × String)) (newID : String) :
    List SummaryParentEdge → Except String (List SummaryParentEdge)
  | [] => .ok []
  | e :: rest =>
      match mapping.lookup e.parentSummaryID with
      | none => .error ("cannot remap parent " ++ e.parentSummaryID)
      | some pn =>
          match remapParents mapping newID rest with
          | .error err => .error err
          | .ok tail =>
              .ok ({ summaryID := newID, parentSummaryID := pn,
                     ordinal := e.ordinal } :: tail)

/-- Modelled from the spec: step 4 — copy each summary in topological
order: mint a new id (a collision with any taken id aborts, standing for
the regenerate-on-collision loop), insert the summary row owned by the
target with identical content, copy its message edges to the new id
(message ids unchanged), and copy its parent edges remapped through the
incrementally built id map. -/
def copySummaries (st : Store) (target : Int) (idGen : Nat → String) :
    Nat → List Summary → transplantCopyState → Except String transplantCopyState
  | _, [], acc => .ok acc
  | n, s :: rest, acc =>
      let newID := idGen n
      if acc.used.contains newID then
        .error ("minted id collides with a taken id: " ++ newID)
      else
        match remapParents acc.mapping newID
            (st.summaryParents.filter (fun e => e.summaryID == s.summaryID)) with
        | .error e => .error e
        | .ok pes =>
            copySummaries st target idGen (n + 1) rest
              { newSummaries := acc.newSummaries
                  ++ [{ s with summaryID := newID, conversationID := target }],
                newMessageEdges := acc.newMessageEdges
                  ++ (st.summaryMessages.filter
                      (fun e => e.summaryID == s.summaryID)).map
                      (fun e => { e with summaryID := newID }),
                newParentEdges := acc.newParentEdges ++ pes,
                mapping := acc.mapping ++ [(s.summaryID, newID)],
                used := acc.used ++ [newID] }

/-- Modelled from the spec: step 6's insertion loop — new context items
at consecutive ordinals referencing the copied top-level summaries. -/
def transplantItems (target : Int) (now : String) :
    Int → List String → List ContextItem
  | _, [] => []
  | ord, sid :: rest =>
      { conversationID := target, ordinal := ord, itemType := "summary",
        messageID := none, summaryID := some sid, createdAt := now }
      :: transplantItems target now (ord + 1) rest

/-- Modelled from the spec: resolve the top context summaries through the
old-to-new id map, preserving their order. -/
def remapTop (mapping : List (String × String)) :
    List (ContextItem × Summary) → Except String (List String)
  | [] => .ok []
  | p :: rest =>
      match mapping.lookup p.2.summaryID with
      | none => .error ("missing mapping for context summary " ++ p.2.summaryID)
      | some nid =>
          match remapTop mapping rest with
          | .error e => .error e
          | .ok tail => .ok (nid :: tail)

/-- Modelled from the spec: the transplant engine (transplant.md
§Algorithm, spec.md §4.3), absent from src/.  Read the source's
summary-type context items; abort when there is nothing to transplant or
when the target already holds a summary with identical content (prior
transplant conflict); copy the ancestor closure in topological order
under fresh ids owned by the target; shift the target's existing context
ordinals up by the number of transplanted items and prepend the new
context items — all one atomic transaction. -/
def transplant (st : Store) (source target : Int) (idGen : Nat → String)
    (now : String) : Except String Store :=
  let top := sourceContextSummaries st source
  if top.isEmpty then .error "nothing to transplant"
  else if top.any (fun p => st.summaries.any (fun t2 =>
      t2.conversationID == target && t2.content == p.2.content)) then
    .error "transplant conflict: target already contains matching summary content"
  else
    match copySummaries st target idGen 0
        (transplantTopo st (ancestorClosure st ((top.map (fun p => p.2.summaryID)).dedup)))
        ⟨[], [], [], [], st.summaries.map Summary.summaryID⟩ with
    | .error e => .error e
    | .ok c =>
        match remapTop c.mapping top with
        | .error e => .error e
        | .ok newTopIDs =>
            .ok { st with
                  summaries := st.summaries ++ c.newSummaries,
                  summaryMessages := st.summaryMessages ++ c.newMessageEdges,
                  summaryParents := st.summaryParents ++ c.newParentEdges,
                  contextItems :=
                    (st.contextItems.map (fun ci =>
                      if ci.conversationID == target then
                        { ci with ordinal := ci.ordinal + (top.length : Int) }
                      else ci)) ++ transplantItems target now 0 newTopIDs }

lemma remapParents_ok_child (mapping : List (String × String)) (newID : String) :
    ∀ (l : List SummaryParentEdge) (pes : List SummaryParentEdge),
      remapParents mapping newID l = .ok pes →
      ∀ e ∈ pes, e.summaryID = newID := by
  intro l
  induction l with
  | nil =>
      intro pes h e he
      have : ([] : List SummaryParentEdge) = pes := Except.ok.inj h
      rw [← this] at he
      exact absurd he (List.not_mem_nil e)
  | cons a t ih =>
      intro pes h e he
      rw [remapParents] at h
      cases hlk : mapping.lookup a.parentSummaryID with
      | none =>
          rw [hlk] at h
          exact Except.noConfusion h
      | some pn =>
          rw [hlk] at h
          cases hrest : remapParents mapping newID t with
          | error err =>
              rw [hrest] at h
              exact Except.noConfusion h
          | ok tail =>
              rw [hrest] at h
              have hpes := (Except.ok.inj h).symm
              rw [hpes] at he
              rcases List.mem_cons.mp he with hh | hh
              · rw [hh]
              · exact ih tail hrest e hh

/-- Invariant of the copy loop: every created row is owned by the target
and carries an id outside `existing`, and the taken-id set keeps
covering `existing`. -/
def copyStateOK (existing : List String) (target : Int)
    (acc : transplantCopyState) : Prop :=
  (∀ x ∈ acc.newSummaries, x.conversationID = target ∧ ¬ x.summaryID ∈ existing) ∧
  (∀ e ∈ acc.newMessageEdges, ¬ e.summaryID ∈ existing) ∧
  (∀ e ∈ acc.newParentEdges, ¬ e.summaryID ∈ existing) ∧
  (∀ x ∈ existing, x ∈ acc.used)

lemma copySummaries_preserves_ok (st : Store) (target : Int) (idGen : Nat → String)
    (existing : List String) :
    ∀ (l : List Summary) (n : Nat) (acc cs : transplantCopyState),
      copySummaries st target idGen n l acc = .ok cs →
      copyStateOK existing target acc → copyStateOK existing target cs := by
  intro l
  induction l with
  | nil =>
      intro n acc cs h hok
      have : acc = cs := Except.ok.inj h
      rw [← this]
      exact hok
  | cons s rest ih =>
      intro n acc cs h hok
      rw [copySummaries] at h
      by_cases hcon : acc.used.contains (idGen n) = true
      · rw [if_pos hcon] at h
        exact Except.noConfusion h
      · rw [if_neg hcon] at h
        cases hrp : remapParents acc.mapping (idGen n)
            (st.summaryParents.filter (fun e => e.summaryID == s.summaryID)) with
        | error e =>
            rw [hrp] at h
            exact Except.noConfusion h
        | ok pes =>
            rw [hrp] at h
            have hfresh : ¬ (idGen n) ∈ existing := by
              intro hmem
              have := hok.2.2.2 _ hmem
              exact hcon ((contains_iff_mem _ _).mpr this)
            refine ih (n + 1) _ cs h ⟨?_, ?_, ?_, ?_⟩
            · intro x hx
              rcases List.mem_append.mp hx with hx | hx
              · exact hok.1 x hx
              · rcases List.mem_singleton.mp hx with rfl
                exact ⟨rfl, hfresh⟩
            · intro e he
              rcases List.mem_append.mp he with he | he
              · exact hok.2.1 e he
              · rcases List.mem_map.mp he with ⟨e0, _, heq⟩
                rw [← heq]
                exact hfresh
            · intro e he
              rcases List.mem_append.mp he with he | he
              · exact hok.2.2.1 e he
              · have := remapParents_ok_child acc.mapping (idGen n) _ pes hrp e he
                rw [this]
                exact hfresh
            · intro x hx
              exact List.mem_append_left _ (hok.2.2.2 x hx)

lemma transplantItems_conv (target : Int) (now : String) :
    ∀ (b : Int) (ids : List String) (x : ContextItem),
      x ∈ transplantItems target now b ids → x.conversationID = target := by
  intro b ids
  induction ids generalizing b with
  | nil =>
      intro x hx
      exact absurd hx (List.not_mem_nil x)
  | cons sid rest ih =>
      intro x hx
      rw [transplantItems] at hx
      rcases List.mem_cons.mp hx with hh | hh
      · rw [hh]
      · exact ih (b + 1) x hh

/-- Claim C9: a successful transplant leaves every Summary,
SummaryParentEdge, SummaryMessageEdge and ContextItem row of the source
conversation byte-for-byte unchanged — in fact every conversation other
than the target is untouched, and every pre-existing summary keeps
exactly its edge rows; only the target conversation gains new rows. -/
theorem transplant_preserves_source_rows
    (st : Store) (source target : Int) (idGen : Nat → String) (now : String)
    (stT : Store)
    (hst : ¬ source = target)
    (h : transplant st source target idGen now = .ok stT) :
    (∀ c : Int, ¬ c = target →
      stT.summaries.filter (fun s => s.conversationID == c) =
        st.summaries.filter (fun s => s.conversationID == c) ∧
      stT.contextItems.filter (fun ci => ci.conversationID == c) =
        st.contextItems.filter (fun ci => ci.conversationID == c)) ∧
    stT.summaryParents.filter (fun e =>
        (st.summaries.map Summary.summaryID).contains e.summaryID) =
      st.summaryParents.filter (fun e =>
        (st.summaries.map Summary.summaryID).contains e.summaryID) ∧
    stT.summaryMessages.filter (fun e =>
        (st.summaries.map Summary.summaryID).contains e.summaryID) =
      st.summaryMessages.filter (fun e =>
        (st.summaries.map Summary.summaryID).contains e.summaryID) ∧
    stT.summaries.filter (fun s => s.conversationID == source) =
      st.summaries.filter (fun s => s.conversationID == source) ∧
    stT.contextItems.filter (fun ci => ci.conversationID == source) =
      st.contextItems.filter (fun ci => ci.conversationID == source) := by
  simp only [transplant] at h
  by_cases h1 : (sourceContextSummaries st source).isEmpty = true
  · rw [if_pos h1] at h
    exact Except.noConfusion h
  · rw [if_neg h1] at h
    by_cases h2 : ((sourceContextSummaries st source).any fun p =>
        st.summaries.any fun t2 =>
          t2.conversationID == target && t2.content == p.2.content) = true
    · rw [if_pos h2] at h
      exact Except.noConfusion h
    · rw [if_neg h2] at h
      cases hcopy : copySummaries st target idGen 0
          (transplantTopo st (ancestorClosure st
            (((sourceContextSummaries st source).map (fun p => p.2.summaryID)).dedup)))
          ⟨[], [], [], [], st.summaries.map Summary.summaryID⟩ with
      | error e =>
          rw [hcopy] at h
          exact Except.noConfusion h
      | ok cs =>
          rw [hcopy] at h
          simp only [] at h
          cases hremap : remapTop cs.mapping (sourceContextSummaries st source) with
          | error e =>
              rw [hremap] at h
              exact Except.noConfusion h
          | ok newTopIDs =>
              rw [hremap] at h
              have hST := (Except.ok.inj h).symm
              have hok : copyStateOK (st.summaries.map Summary.summaryID) target cs := by
                refine copySummaries_preserves_ok st target idGen _ _ 0 _ cs hcopy
                  ⟨?_, ?_, ?_, ?_⟩
                · intro x hx
                  exact absurd hx (List.not_mem_nil x)
                · intro e he
                  exact absurd he (List.not_mem_nil e)
                · intro e he
                  exact absurd he (List.not_mem_nil e)
                · intro x hx
                  exact hx
              have hconv : ∀ c : Int, ¬ c = target →
                  stT.summaries.filter (fun s => s.conversationID == c) =
                    st.summaries.filter (fun s => s.conversationID == c) ∧
                  stT.contextItems.filter (fun ci => ci.conversationID == c) =
                    st.contextItems.filter (fun ci => ci.conversationID == c) := by
                intro c hc
                rw [hST]
                constructor
                · show (st.summaries ++ cs.newSummaries).filter
                      (fun s => s.conversationID == c) = _
                  rw [List.filter_append,
                    (List.filter_eq_nil_iff (l := cs.newSummaries)).mpr
                      (fun x hx => ?_), List.append_nil]
                  rw [(hok.1 x hx).1, beq_int_false (fun he => hc he.symm)]
                  simp
                · show ((st.contextItems.map (fun ci =>
                      if ci.conversationID == target then
                        { ci with ordinal := ci.ordinal
                            + ((sourceContextSummaries st source).length : Int) }
                      else ci)) ++ transplantItems target now 0 newTopIDs).filter
                      (fun ci => ci.conversationID == c) = _
                  rw [List.filter_append,
                    (List.filter_eq_nil_iff (l := transplantItems target now 0 newTopIDs)).mpr
                      (fun x hx => ?_), List.append_nil]
                  · have hpred : ∀ ci : ContextItem,
                        ((fun ci => ci.conversationID == c) ∘ fun ci =>
                          if ci.conversationID == target then
                            { ci with ordinal := ci.ordinal
                                + ((sourceContextSummaries st source).length : Int) }
                          else ci) ci = (ci.conversationID == c) := by
                      intro ci
                      simp only [Function.comp]
                      split <;> rfl
                    rw [List.filter_map, List.filter_congr (fun ci _ => hpred ci)]
                    refine (List.map_congr_left (fun ci hci => ?_)).trans
                      (List.map_id _)
                    have hcc : (ci.conversationID == c) = true :=
                      (List.mem_filter.mp hci).2
                    have hcid : ci.conversationID = c := by simpa using hcc
                    have hcT : (ci.conversationID == target) = false :=
                      beq_int_false (fun hT => hc (hcid.symm.trans hT))
                    rw [if_neg (by rw [hcT]; exact Bool.noConfusion)]
                    rfl
                  · rw [transplantItems_conv target now 0 newTopIDs x hx,
                      beq_int_false (fun he => hc he.symm)]
                    simp
              refine ⟨hconv, ?_, ?_, (hconv source hst).1, (hconv source hst).2⟩
              · rw [hST]
                show (st.summaryParents ++ cs.newParentEdges).filter _ = _
                rw [List.filter_append,
                  (List.filter_eq_nil_iff (l := cs.newParentEdges)).mpr
                    (fun e he => ?_), List.append_nil]
                have := hok.2.2.1 e he
                rw [Bool.not_eq_true, contains_eq_false_iff]
                exact this
              · rw [hST]
                show (st.summaryMessages ++ cs.newMessageEdges).filter _ = _
                rw [List.filter_append,
                  (List.filter_eq_nil_iff (l := cs.newMessageEdges)).mpr
                    (fun e he => ?_), List.append_nil]
                have := hok.2.1 e he
                rw [Bool.not_eq_true, contains_eq_false_iff]
                exact this

/-- Transplant witness store: conversation 1 holds one leaf summary in
its context, conversation 2 holds one raw message. -/
def storeT : Store :=
  { summaries :=
      [ { summaryID := "sum_s", conversationID := 1, kind := "leaf", content := "s",
          tokenCount := 5, createdAt := "t0", fileIDs := none, depth := 0 } ],
    summaryParents := [],
    summaryMessages := [ { summaryID := "sum_s", messageID := 4, ordinal := 0 } ],
    contextItems :=
      [ { conversationID := 1, ordinal := 0, itemType := "summary", messageID := none,
          summaryID := some "sum_s", createdAt := "t0" },
        { conversationID := 2, ordinal := 0, itemType := "message", messageID := some 9,
          summaryID := none, createdAt := "t0" } ] }

/-- A fresh-id supply for the transplant witness. -/
def genT : Nat → String := fun _ => "sum_new0"

/-- The store `storeT` after transplanting conversation 1 into 2. -/
def storeTRes : Store :=
  { summaries :=
      storeT.summaries ++
      [ { summaryID := "sum_new0", conversationID := 2, kind := "leaf", content := "s",
          tokenCount := 5, createdAt := "t0", fileIDs := none, depth := 0 } ],
    summaryParents := [],
    summaryMessages :=
      storeT.summaryMessages ++
      [ { summaryID := "sum_new0", messageID := 4, ordinal := 0 } ],
    contextItems :=
      [ { conversationID := 1, ordinal := 0, itemType := "summary", messageID := none,
          summaryID := some "sum_s", createdAt := "t0" },
        { conversationID := 2, ordinal := 1, itemType := "message", messageID := some 9,
          summaryID := none, createdAt := "t0" },
        { conversationID := 2, ordinal := 0, itemType := "summary", messageID := none,
          summaryID := some "sum_new0", createdAt := "tn" } ] }

/-- Witness for claim C9: the concrete transplant of conversation 1 into
conversation 2 succeeds and leaves conversation 1's summary and context
rows exactly as they were. -/
theorem transplant_preserves_source_rows_witness :
    storeTRes.summaries.filter (fun s => s.conversationID == 1) =
      storeT.summaries.filter (fun s => s.conversationID == 1) ∧
    storeTRes.contextItems.filter (fun ci => ci.conversationID == 1) =
      storeT.contextItems.filter (fun ci => ci.conversationID == 1) :=
  (transplant_preserves_source_rows storeT 1 2 genT "tn" storeTRes (by decide)
    (by rfl)).1 1 (by decide)
